import Mathlib

/-!
# Swing/twist decomposition of a rotation (`src/main.cpp`)

The program decomposes a rotation `r` about a reference direction `e_q` into a
swing `p` and a twist `q`.  The C++ code works on `Eigen::Quaterniond` and
`Eigen::Vector3d`; here every `double` is an exact real number, and the Eigen
operations the program calls (`normalize`, `normalized`, `cross`, `dot`,
`isApprox`, quaternion product, `conjugate`, quaternion-times-vector) are
written out coordinate by coordinate the way Eigen computes them.

Conventions.
* Rounding, infinities and NaN are not modelled: arithmetic is that of `ℝ`.
* `isApprox` keeps its tolerance: the branch tests of `decompose_rotation`
  compare with Eigen's default precision `1e-12`, not with exact equality.
* `std::acos` is `Real.arccos`; the two agree on `[-1, 1]`, where the argument
  of the program lies in exact arithmetic once its inputs are normalized.
  Overshoot of a rounded dot product beyond `1` is a rounding effect and is
  outside this development.
* "Unit" for a quaternion or a vector is stated as `squaredNorm = 1`.
-/

namespace RotationDecomposition

/-! ## Data model -/

/-- Three coordinates, as in `Eigen::Vector3d`. -/
@[ext]
structure Vector3d where
  x : ℝ
  y : ℝ
  z : ℝ

/-- Four coordinates in the order of the constructor `Eigen::Quaterniond(w, x, y, z)`. -/
@[ext]
structure Quaterniond where
  w : ℝ
  x : ℝ
  y : ℝ
  z : ℝ

/-- Default precision of `isApprox` for `double`:
`Eigen::NumTraits<double>::dummy_precision()`, which is `1e-12`. -/
noncomputable def dummy_precision : ℝ := 1 / 10 ^ 12

/-- Library function `std::acos` on real numbers.  On `[-1, 1]` it is
`Real.arccos`; outside that interval `std::acos` returns NaN, which has no
counterpart here, and `Real.arccos` is constant there.  The two places that
call it pass the dot product of two unit vectors (`dot_bounds`) and the scalar
part of a unit quaternion, both in `[-1, 1]` in exact arithmetic; whether the
rounded `double` argument stays in range is not expressed by this model. -/
noncomputable def acos (t : ℝ) : ℝ := Real.arccos t

namespace Vector3d

/-- Scalar times vector, as in `-1 * e_q`. -/
def smul (a : ℝ) (v : Vector3d) : Vector3d := ⟨a * v.x, a * v.y, a * v.z⟩

/-- Coordinatewise difference `u - v`. -/
def sub (u v : Vector3d) : Vector3d := ⟨u.x - v.x, u.y - v.y, u.z - v.z⟩

/-- Coordinatewise sum `u + v`. -/
def add (u v : Vector3d) : Vector3d := ⟨u.x + v.x, u.y + v.y, u.z + v.z⟩

/-- Inner product `u.dot(v)`. -/
def dot (u v : Vector3d) : ℝ := u.x * v.x + u.y * v.y + u.z * v.z

/-- Vector product `u.cross(v)`. -/
def cross (u v : Vector3d) : Vector3d :=
  ⟨u.y * v.z - u.z * v.y, u.z * v.x - u.x * v.z, u.x * v.y - u.y * v.x⟩

/-- Sum of the squared coordinates, `v.squaredNorm()`. -/
def squaredNorm (v : Vector3d) : ℝ := v.x * v.x + v.y * v.y + v.z * v.z

/-- Euclidean length `v.norm()`. -/
noncomputable def norm (v : Vector3d) : ℝ := Real.sqrt v.squaredNorm

/-- Result of `v.normalize()` and of `v.normalized()`: Eigen divides by the
length when the squared length is positive and leaves the vector alone
otherwise. -/
noncomputable def normalized (v : Vector3d) : Vector3d :=
  if 0 < v.squaredNorm then
    ⟨v.x / Real.sqrt v.squaredNorm, v.y / Real.sqrt v.squaredNorm,
      v.z / Real.sqrt v.squaredNorm⟩
  else v

/-- Fuzzy comparison `u.isApprox(v, prec)` of Eigen:
`‖u - v‖² ≤ prec² * min(‖u‖², ‖v‖²)`. -/
def isApprox (u v : Vector3d) (prec : ℝ) : Prop :=
  (u.sub v).squaredNorm ≤ prec * prec * min u.squaredNorm v.squaredNorm

noncomputable instance (u v : Vector3d) (prec : ℝ) : Decidable (isApprox u v prec) :=
  Classical.propDecidable _

end Vector3d

namespace Quaterniond

/-- Vector part `q.vec()`. -/
def vec (q : Quaterniond) : Vector3d := ⟨q.x, q.y, q.z⟩

/-- Sum of the four squared coefficients, `q.squaredNorm()`. -/
def squaredNorm (q : Quaterniond) : ℝ := q.w * q.w + q.x * q.x + q.y * q.y + q.z * q.z

/-- Length `q.norm()` of the coefficient vector. -/
noncomputable def norm (q : Quaterniond) : ℝ := Real.sqrt q.squaredNorm

/-- Scalar times quaternion, coefficient by coefficient. -/
def smul (a : ℝ) (q : Quaterniond) : Quaterniond := ⟨a * q.w, a * q.x, a * q.y, a * q.z⟩

/-- Result of `q.normalize()`: the coefficient vector is normalized the way a
vector is, divided by its length when the squared length is positive. -/
noncomputable def normalized (q : Quaterniond) : Quaterniond :=
  if 0 < q.squaredNorm then
    ⟨q.w / Real.sqrt q.squaredNorm, q.x / Real.sqrt q.squaredNorm,
      q.y / Real.sqrt q.squaredNorm, q.z / Real.sqrt q.squaredNorm⟩
  else q

/-- Conjugate `q.conjugate()`: the vector part changes sign. -/
def conjugate (q : Quaterniond) : Quaterniond := ⟨q.w, -q.x, -q.y, -q.z⟩

/-- Hamilton product `a * b` of two quaternions. -/
def mul (a b : Quaterniond) : Quaterniond :=
  ⟨a.w * b.w - a.x * b.x - a.y * b.y - a.z * b.z,
   a.w * b.x + a.x * b.w + a.y * b.z - a.z * b.y,
   a.w * b.y + a.y * b.w + a.z * b.x - a.x * b.z,
   a.w * b.z + a.z * b.w + a.x * b.y - a.y * b.x⟩

/-- Quaternion times vector, `q * v`, which Eigen computes in
`_transformVector` as `v + w * uv + vec × uv` with `uv = 2 * (vec × v)`. -/
def transformVector (q : Quaterniond) (v : Vector3d) : Vector3d :=
  let uv := Vector3d.smul 2 (q.vec.cross v)
  (v.add (Vector3d.smul q.w uv)).add (q.vec.cross uv)

/-- Fuzzy comparison `a.isApprox(b, prec)` of two quaternions: the comparison
of their coefficient vectors. -/
def isApprox (a b : Quaterniond) (prec : ℝ) : Prop :=
  (a.w - b.w) * (a.w - b.w) + (a.x - b.x) * (a.x - b.x) + (a.y - b.y) * (a.y - b.y)
      + (a.z - b.z) * (a.z - b.z)
    ≤ prec * prec * min a.squaredNorm b.squaredNorm

noncomputable instance (a b : Quaterniond) (prec : ℝ) : Decidable (isApprox a b prec) :=
  Classical.propDecidable _

end Quaterniond

/-! ## The decomposition -/

/-- The function `decompose_rotation` of `src/main.cpp`, lines 4 to 23. -/
noncomputable def decompose_rotation (r : Quaterniond) (e_q : Vector3d) :
    Quaterniond × Quaterniond :=
  let e_q := e_q.normalized
  let r := r.normalized
  let re_q := r.transformVector e_q
  if re_q.isApprox e_q dummy_precision then
    (⟨1, 0, 0, 0⟩, r)
  else if re_q.isApprox (Vector3d.smul (-1) e_q) dummy_precision then
    (r, ⟨1, 0, 0, 0⟩)
  else
    let e_p := (e_q.cross re_q).normalized
    let theta_p := acos (e_q.dot re_q)
    let p : Quaterniond :=
      ⟨Real.cos (theta_p / 2), Real.sin (theta_p / 2) * e_p.x,
        Real.sin (theta_p / 2) * e_p.y, Real.sin (theta_p / 2) * e_p.z⟩
    let q := p.conjugate.mul r
    (p, q)

/-- The axis `e_p` that `test` reads back from `p` (lines 41 to 46): the vector
part of `p`, divided by `sin(theta_p / 2)` when `theta_p = 2 * acos(p.w)` is
not zero. -/
noncomputable def test_e_p (p : Quaterniond) : Vector3d :=
  let theta_p := 2 * acos p.w
  if theta_p ≠ 0 then
    ⟨p.x / Real.sin (theta_p / 2), p.y / Real.sin (theta_p / 2),
      p.z / Real.sin (theta_p / 2)⟩
  else ⟨p.x, p.y, p.z⟩


/-! ## Algebra of the Eigen operations -/

/-- The rotation `q v q⁻¹` written out for any quaternion: for a unit `q` this
is what `transformVector` computes. -/
def rotStd (q : Quaterniond) (v : Vector3d) : Vector3d :=
  ((Vector3d.smul (q.w * q.w - q.vec.squaredNorm) v).add
    (Vector3d.smul (2 * q.w) (q.vec.cross v))).add (Vector3d.smul (2 * q.vec.dot v) q.vec)

/-- The swing that the general branch builds (lines 15 to 19) from the
normalized direction `e_q` and its image `re_q`. -/
noncomputable def general_p (e_q re_q : Vector3d) : Quaterniond :=
  let e_p := (e_q.cross re_q).normalized
  let theta_p := acos (e_q.dot re_q)
  ⟨Real.cos (theta_p / 2), Real.sin (theta_p / 2) * e_p.x,
    Real.sin (theta_p / 2) * e_p.y, Real.sin (theta_p / 2) * e_p.z⟩

/-- A unit quaternion that turns by about `4e-13` radians about the x axis:
`(cos, sin, 0, 0)` of the half angle, with rational coordinates. -/
noncomputable def tiny_tilt : Quaterniond :=
  ⟨(10 ^ 26 - 1) / (10 ^ 26 + 1), 2 * 10 ^ 13 / (10 ^ 26 + 1), 0, 0⟩

/-- A unit quaternion that turns by about `4e-13` radians short of a half turn
about the x axis, with a negative scalar part and rational coordinates. -/
noncomputable def near_flip : Quaterniond :=
  ⟨-(2 * 10 ^ 13) / (10 ^ 26 + 1), (10 ^ 26 - 1) / (10 ^ 26 + 1), 0, 0⟩

/-- A unit quaternion with scalar part 0 that is a half turn about an axis
tilted by about `2e-13` radians from the x axis towards the z axis, with
rational coordinates. -/
noncomputable def skew_flip : Quaterniond :=
  ⟨0, (10 ^ 26 - 1) / (10 ^ 26 + 1), 0, 2 * 10 ^ 13 / (10 ^ 26 + 1)⟩

/-- The quaternion of the fourth fixed scenario of `main` (line 88):
`Eigen::Quaterniond(1 / std::sqrt(2), 1 / std::sqrt(2), 0, 0)`. -/
noncomputable def quarter_turn : Quaterniond :=
  ⟨1 / Real.sqrt 2, 1 / Real.sqrt 2, 0, 0⟩

/-- Coefficientwise opposite `-q` of a quaternion. -/
def Quaterniond.neg (q : Quaterniond) : Quaterniond := ⟨-q.w, -q.x, -q.y, -q.z⟩

/-- The shortest-arc quaternion from `e_q` to `re_q` in closed form, without
trigonometric functions: scalar part `sqrt((1 + d) / 2)` and vector part
`c / sqrt(2 * (1 + d))`, with `d = e_q · re_q` and `c = e_q × re_q`. -/
noncomputable def spec_shortest_arc (e_q re_q : Vector3d) : Quaterniond :=
  ⟨Real.sqrt ((1 + e_q.dot re_q) / 2),
    (e_q.cross re_q).x / Real.sqrt (2 * (1 + e_q.dot re_q)),
    (e_q.cross re_q).y / Real.sqrt (2 * (1 + e_q.dot re_q)),
    (e_q.cross re_q).z / Real.sqrt (2 * (1 + e_q.dot re_q))⟩

/-- The value that `test(r, e_q)` returns (lines 38 to 72); what it prints is
left out. -/
noncomputable def test (r : Quaterniond) (e_q : Vector3d) : Bool :=
  let pq := decompose_rotation r e_q
  let p := pq.1
  let q := pq.2
  let e_p := test_e_p p
  let size_p := decide (|p.norm - 1| < 1 / 10 ^ 10)
  let size_q := decide (|q.norm - 1| < 1 / 10 ^ 10)
  let is_rpq := decide (r.isApprox (p.mul q) dummy_precision)
  let is_vert := decide (e_p.dot e_q < 1 / 10 ^ 10)
  size_p && size_q && is_rpq && is_vert

/-- The loop of `main` (lines 98 to 107) with `n` iterations left, the next
one being number `i`: the lines it prints, and the exit status when it returns
from `main`.  The outcome of a call of `test` is given by `t`, the random
quaternion and vector of iteration `i` by `sample i`. -/
def main_others (t : Quaterniond → Vector3d → Bool) (sample : ℕ → Quaterniond × Vector3d) :
    ℕ → ℕ → List String × Option ℤ
  | 0, _ => ([], none)
  | n + 1, i =>
    if t (sample i).1 (sample i).2 then
      (("Good." :: (main_others t sample n (i + 1)).1), (main_others t sample n (i + 1)).2)
    else (["Something wrong."], some 0)

/-- The driver `main` (lines 75 to 112): the lines it prints itself and its
exit status, for the outcomes `t` of the calls of `test` and the random inputs
`sample`. -/
noncomputable def main (t : Quaterniond → Vector3d → Bool)
    (sample : ℕ → Quaterniond × Vector3d) : List String × ℤ :=
  if t ⟨1, 0, 0, 0⟩ ⟨1, 0, 0⟩ && t ⟨0, 1, 0, 0⟩ ⟨1, 0, 0⟩ then
    if t ⟨0, 1, 0, 0⟩ ⟨0, 0, 1⟩ && t ⟨1 / Real.sqrt 2, 1 / Real.sqrt 2, 0, 0⟩ ⟨0, 0, 1⟩ then
      match (main_others t sample 1000 0).2 with
      | some status =>
        (["re_q == e_q", "Good.", "", "re_q == -1 * e_q", "Good.", "", "Others"]
          ++ (main_others t sample 1000 0).1, status)
      | none =>
        (["re_q == e_q", "Good.", "", "re_q == -1 * e_q", "Good.", "", "Others"]
          ++ (main_others t sample 1000 0).1 ++ ["", "All OK."], 0)
    else (["re_q == e_q", "Good.", "", "re_q == -1 * e_q", "Something wrong."], 0)
  else (["re_q == e_q", "Something wrong."], 0)

theorem Vector3d.normalized_of_unit {v : Vector3d} (h : v.squaredNorm = 1) :
    v.normalized = v := by
  simp [Vector3d.normalized, h]

theorem Quaterniond.normalized_eq_self {q : Quaterniond} (h : q.squaredNorm = 1) :
    q.normalized = q := by
  simp [Quaterniond.normalized, h]

theorem Quaterniond.squaredNorm_mul (a b : Quaterniond) :
    (a.mul b).squaredNorm = a.squaredNorm * b.squaredNorm := by
  simp only [Quaterniond.mul, Quaterniond.squaredNorm]
  ring

theorem Quaterniond.squaredNorm_conjugate (a : Quaterniond) :
    a.conjugate.squaredNorm = a.squaredNorm := by
  simp only [Quaterniond.conjugate, Quaterniond.squaredNorm]
  ring

theorem Quaterniond.mul_conjugate_mul {p : Quaterniond} (hp : p.squaredNorm = 1)
    (r : Quaterniond) : p.mul (p.conjugate.mul r) = r := by
  simp only [Quaterniond.squaredNorm] at hp
  ext
  · simp only [Quaterniond.mul, Quaterniond.conjugate]
    linear_combination r.w * hp
  · simp only [Quaterniond.mul, Quaterniond.conjugate]
    linear_combination r.x * hp
  · simp only [Quaterniond.mul, Quaterniond.conjugate]
    linear_combination r.y * hp
  · simp only [Quaterniond.mul, Quaterniond.conjugate]
    linear_combination r.z * hp

theorem transformVector_eq_rotStd {q : Quaterniond} (hq : q.squaredNorm = 1) (v : Vector3d) :
    q.transformVector v = rotStd q v := by
  simp only [Quaterniond.squaredNorm] at hq
  ext
  · simp only [Quaterniond.transformVector, rotStd, Quaterniond.vec, Vector3d.smul,
      Vector3d.add, Vector3d.cross, Vector3d.dot, Vector3d.squaredNorm]
    linear_combination (-v.x) * hq
  · simp only [Quaterniond.transformVector, rotStd, Quaterniond.vec, Vector3d.smul,
      Vector3d.add, Vector3d.cross, Vector3d.dot, Vector3d.squaredNorm]
    linear_combination (-v.y) * hq
  · simp only [Quaterniond.transformVector, rotStd, Quaterniond.vec, Vector3d.smul,
      Vector3d.add, Vector3d.cross, Vector3d.dot, Vector3d.squaredNorm]
    linear_combination (-v.z) * hq

theorem rotStd_mul (p r : Quaterniond) (v : Vector3d) :
    rotStd (p.mul r) v = rotStd p (rotStd r v) := by
  ext
  · simp only [rotStd, Quaterniond.mul, Quaterniond.vec, Vector3d.smul,
      Vector3d.add, Vector3d.cross, Vector3d.dot, Vector3d.squaredNorm]
    ring
  · simp only [rotStd, Quaterniond.mul, Quaterniond.vec, Vector3d.smul,
      Vector3d.add, Vector3d.cross, Vector3d.dot, Vector3d.squaredNorm]
    ring
  · simp only [rotStd, Quaterniond.mul, Quaterniond.vec, Vector3d.smul,
      Vector3d.add, Vector3d.cross, Vector3d.dot, Vector3d.squaredNorm]
    ring

theorem rotStd_conjugate (p : Quaterniond) (v : Vector3d) :
    rotStd p.conjugate (rotStd p v) = Vector3d.smul (p.squaredNorm * p.squaredNorm) v := by
  ext
  · simp only [rotStd, Quaterniond.conjugate, Quaterniond.vec, Vector3d.smul,
      Vector3d.add, Vector3d.cross, Vector3d.dot, Vector3d.squaredNorm, Quaterniond.squaredNorm]
    ring
  · simp only [rotStd, Quaterniond.conjugate, Quaterniond.vec, Vector3d.smul,
      Vector3d.add, Vector3d.cross, Vector3d.dot, Vector3d.squaredNorm, Quaterniond.squaredNorm]
    ring
  · simp only [rotStd, Quaterniond.conjugate, Quaterniond.vec, Vector3d.smul,
      Vector3d.add, Vector3d.cross, Vector3d.dot, Vector3d.squaredNorm, Quaterniond.squaredNorm]
    ring

theorem squaredNorm_rotStd (q : Quaterniond) (v : Vector3d) :
    (rotStd q v).squaredNorm = q.squaredNorm * q.squaredNorm * v.squaredNorm := by
  simp only [rotStd, Quaterniond.vec, Vector3d.smul,
      Vector3d.add, Vector3d.cross, Vector3d.dot, Vector3d.squaredNorm, Quaterniond.squaredNorm]
  ring

theorem squaredNorm_transformVector {q : Quaterniond} (hq : q.squaredNorm = 1) (v : Vector3d) :
    (q.transformVector v).squaredNorm = v.squaredNorm := by
  rw [transformVector_eq_rotStd hq, squaredNorm_rotStd, hq]
  ring

theorem transformVector_mul {p r : Quaterniond} (hp : p.squaredNorm = 1)
    (hr : r.squaredNorm = 1) (v : Vector3d) :
    (p.mul r).transformVector v = p.transformVector (r.transformVector v) := by
  have hpr : (p.mul r).squaredNorm = 1 := by rw [Quaterniond.squaredNorm_mul, hp, hr]; ring
  rw [transformVector_eq_rotStd hpr, transformVector_eq_rotStd hp, transformVector_eq_rotStd hr,
    rotStd_mul]

theorem transformVector_conjugate {p : Quaterniond} (hp : p.squaredNorm = 1) (v : Vector3d) :
    p.conjugate.transformVector (p.transformVector v) = v := by
  have hc : p.conjugate.squaredNorm = 1 := by rw [Quaterniond.squaredNorm_conjugate, hp]
  rw [transformVector_eq_rotStd hc, transformVector_eq_rotStd hp, rotStd_conjugate, hp]
  ext <;> simp [Vector3d.smul]

theorem Vector3d.squaredNorm_cross (a b : Vector3d) :
    (a.cross b).squaredNorm = a.squaredNorm * b.squaredNorm - a.dot b * a.dot b := by
  simp only [Vector3d.cross, Vector3d.squaredNorm, Vector3d.dot]
  ring

theorem Vector3d.squaredNorm_nonneg (a : Vector3d) : 0 ≤ a.squaredNorm := by
  simp only [Vector3d.squaredNorm]
  nlinarith [mul_self_nonneg a.x, mul_self_nonneg a.y, mul_self_nonneg a.z]

theorem Vector3d.eq_zero_of_squaredNorm {a : Vector3d} (h : a.squaredNorm = 0) :
    a = ⟨0, 0, 0⟩ := by
  simp only [Vector3d.squaredNorm] at h
  ext <;> simp <;> nlinarith [mul_self_nonneg a.x, mul_self_nonneg a.y, mul_self_nonneg a.z]


/-! ## The branches of `decompose_rotation` on unit inputs -/

theorem decompose_rotation_unit {r : Quaterniond} {e_q : Vector3d}
    (hr : r.squaredNorm = 1) (he : e_q.squaredNorm = 1) :
    decompose_rotation r e_q =
      if (r.transformVector e_q).isApprox e_q dummy_precision then (⟨1, 0, 0, 0⟩, r)
      else if (r.transformVector e_q).isApprox (Vector3d.smul (-1) e_q) dummy_precision then
        (r, ⟨1, 0, 0, 0⟩)
      else (general_p e_q (r.transformVector e_q),
        (general_p e_q (r.transformVector e_q)).conjugate.mul r) := by
  simp only [decompose_rotation, general_p, Quaterniond.normalized_eq_self hr,
    Vector3d.normalized_of_unit he]

theorem Vector3d.isApprox_self (a : Vector3d) : a.isApprox a dummy_precision := by
  have h0 : (a.sub a).squaredNorm = 0 := by
    simp [Vector3d.sub, Vector3d.squaredNorm]
  simp only [Vector3d.isApprox, h0, min_self]
  exact mul_nonneg (by norm_num [dummy_precision]) a.squaredNorm_nonneg

theorem Vector3d.dot_sq_le {a b : Vector3d} (ha : a.squaredNorm = 1) (hb : b.squaredNorm = 1) :
    a.dot b * a.dot b ≤ 1 := by
  have h := Vector3d.squaredNorm_cross a b
  have h2 := (a.cross b).squaredNorm_nonneg
  rw [ha, hb] at h
  linarith

/-- Shape of the general-case swing: a scalar part `C` and the vector part
`k • (a × b)`, with the three relations that the half-angle formulas give. -/
theorem general_p_shape {a b : Vector3d} (ha : a.squaredNorm = 1) (hb : b.squaredNorm = 1)
    (hpos : 0 < (a.cross b).squaredNorm) :
    ∃ C k : ℝ, general_p a b = ⟨C, k * (a.cross b).x, k * (a.cross b).y, k * (a.cross b).z⟩ ∧
      2 * k * C = 1 ∧ C * C - k * k * (a.cross b).squaredNorm = a.dot b ∧
      C * C + k * k * (a.cross b).squaredNorm = 1 ∧ 0 < C ∧ 0 < k := by
  have hcr := Vector3d.squaredNorm_cross a b
  rw [ha, hb] at hcr
  have hd := Vector3d.dot_sq_le ha hb
  have hd1 : -1 ≤ a.dot b := by nlinarith
  have hd2 : a.dot b ≤ 1 := by nlinarith
  set n := Real.sqrt (a.cross b).squaredNorm with hn
  have hnpos : 0 < n := Real.sqrt_pos.mpr hpos
  have hnn : n * n = (a.cross b).squaredNorm := Real.mul_self_sqrt hpos.le
  set θ := Real.arccos (a.dot b) with hθ
  have hcos : Real.cos θ = a.dot b := Real.cos_arccos hd1 hd2
  have hsin : Real.sin θ = n := by
    rw [hθ, Real.sin_arccos, hn]
    congr 1
    rw [hcr]; ring
  have h2c : Real.cos θ = 2 * Real.cos (θ / 2) ^ 2 - 1 := by
    rw [← Real.cos_two_mul]; congr 1; ring
  have h2s : Real.sin θ = 2 * Real.sin (θ / 2) * Real.cos (θ / 2) := by
    rw [← Real.sin_two_mul]; congr 1; ring
  have hsc : Real.sin (θ / 2) ^ 2 + Real.cos (θ / 2) ^ 2 = 1 := Real.sin_sq_add_cos_sq _
  have hθ0 : 0 ≤ θ := Real.arccos_nonneg _
  have hθπ : θ ≤ Real.pi := Real.arccos_le_pi _
  have hC0 : 0 ≤ Real.cos (θ / 2) :=
    Real.cos_nonneg_of_mem_Icc ⟨by linarith, by linarith⟩
  have hS0 : 0 ≤ Real.sin (θ / 2) :=
    Real.sin_nonneg_of_nonneg_of_le_pi (by linarith) (by linarith)
  have hSC : 0 < Real.sin (θ / 2) * Real.cos (θ / 2) := by nlinarith
  have hCpos : 0 < Real.cos (θ / 2) := by
    rcases hC0.lt_or_eq with h | h
    · exact h
    · rw [← h] at hSC; simp at hSC
  have hSpos : 0 < Real.sin (θ / 2) := by
    rcases hS0.lt_or_eq with h | h
    · exact h
    · rw [← h] at hSC; simp at hSC
  refine ⟨Real.cos (θ / 2), Real.sin (θ / 2) / n, ?_, ?_, ?_, ?_, hCpos, div_pos hSpos hnpos⟩
  · simp only [general_p, acos, Vector3d.normalized, if_pos hpos]
    ext <;> simp only [] <;> ring
  · field_simp
    linarith
  · rw [← hnn]
    field_simp
    nlinarith
  · rw [← hnn]
    field_simp
    nlinarith


theorem swing_unit {a b : Vector3d} {C k : ℝ}
    (h3 : C * C + k * k * (a.cross b).squaredNorm = 1) :
    (Quaterniond.mk C (k * (a.cross b).x) (k * (a.cross b).y)
      (k * (a.cross b).z)).squaredNorm = 1 := by
  simp only [Quaterniond.squaredNorm, Vector3d.squaredNorm] at *
  linear_combination h3

theorem swing_transform {a b : Vector3d} {C k : ℝ} (ha : a.squaredNorm = 1)
    (h1 : 2 * k * C = 1) (h2 : C * C - k * k * (a.cross b).squaredNorm = a.dot b)
    (h3 : C * C + k * k * (a.cross b).squaredNorm = 1) :
    (Quaterniond.mk C (k * (a.cross b).x) (k * (a.cross b).y)
      (k * (a.cross b).z)).transformVector a = b := by
  rw [transformVector_eq_rotStd (swing_unit h3)]
  simp only [Vector3d.squaredNorm, Vector3d.cross, Vector3d.dot] at ha h2
  ext
  · simp only [rotStd, Quaterniond.vec, Vector3d.smul, Vector3d.add, Vector3d.cross,
      Vector3d.dot, Vector3d.squaredNorm]
    linear_combination a.x * h2
      + ((a.z * b.x - a.x * b.z) * a.z - (a.x * b.y - a.y * b.x) * a.y) * h1 + b.x * ha
  · simp only [rotStd, Quaterniond.vec, Vector3d.smul, Vector3d.add, Vector3d.cross,
      Vector3d.dot, Vector3d.squaredNorm]
    linear_combination a.y * h2
      + ((a.x * b.y - a.y * b.x) * a.x - (a.y * b.z - a.z * b.y) * a.z) * h1 + b.y * ha
  · simp only [rotStd, Quaterniond.vec, Vector3d.smul, Vector3d.add, Vector3d.cross,
      Vector3d.dot, Vector3d.squaredNorm]
    linear_combination a.z * h2
      + ((a.y * b.z - a.z * b.y) * a.y - (a.z * b.x - a.x * b.z) * a.x) * h1 + b.z * ha

theorem swing_vec_dot (a b : Vector3d) (C k : ℝ) :
    (Quaterniond.mk C (k * (a.cross b).x) (k * (a.cross b).y)
      (k * (a.cross b).z)).vec.dot a = 0 := by
  simp only [Quaterniond.vec, Vector3d.cross, Vector3d.dot]
  ring

/-- Facts about the general-case swing: it is a unit quaternion, it carries
`a` to `b`, its vector part is orthogonal to `a`, and its scalar part is
positive. -/
theorem general_p_facts {a b : Vector3d} (ha : a.squaredNorm = 1) (hb : b.squaredNorm = 1)
    (hpos : 0 < (a.cross b).squaredNorm) :
    (general_p a b).squaredNorm = 1 ∧ (general_p a b).transformVector a = b ∧
      (general_p a b).vec.dot a = 0 ∧ 0 < (general_p a b).w := by
  obtain ⟨C, k, hshape, h1, h2, h3, hC, _⟩ := general_p_shape ha hb hpos
  rw [hshape]
  exact ⟨swing_unit h3, swing_transform ha h1 h2 h3, swing_vec_dot a b C k, hC⟩

theorem Vector3d.cross_self (a : Vector3d) : a.cross a = ⟨0, 0, 0⟩ := by
  ext <;> simp only [Vector3d.cross] <;> ring

theorem Vector3d.cross_neg_self (a : Vector3d) : a.cross (Vector3d.smul (-1) a) = ⟨0, 0, 0⟩ := by
  ext <;> simp only [Vector3d.cross, Vector3d.smul] <;> ring

/-- Two unit vectors have a zero cross product exactly when they are equal or
opposite. -/
theorem Vector3d.cross_eq_zero_iff {a b : Vector3d} (ha : a.squaredNorm = 1)
    (hb : b.squaredNorm = 1) :
    a.cross b = ⟨0, 0, 0⟩ ↔ b = a ∨ b = Vector3d.smul (-1) a := by
  constructor
  · intro h
    have hcr := Vector3d.squaredNorm_cross a b
    rw [h, ha, hb] at hcr
    have hd : (a.dot b - 1) * (a.dot b + 1) = 0 := by
      simp only [Vector3d.squaredNorm] at hcr
      linear_combination hcr
    rcases mul_eq_zero.mp hd with h1 | h1
    · left
      have hz : (b.sub a).squaredNorm = 0 := by
        simp only [Vector3d.squaredNorm, Vector3d.sub, Vector3d.dot] at *
        linear_combination ha + hb - 2 * h1
      have := Vector3d.eq_zero_of_squaredNorm hz
      simp only [Vector3d.sub, Vector3d.mk.injEq] at this
      ext <;> linarith
    · right
      have hz : (b.sub (Vector3d.smul (-1) a)).squaredNorm = 0 := by
        simp only [Vector3d.squaredNorm, Vector3d.sub, Vector3d.dot, Vector3d.smul] at *
        linear_combination ha + hb + 2 * h1
      have := Vector3d.eq_zero_of_squaredNorm hz
      simp only [Vector3d.sub, Vector3d.smul, Vector3d.mk.injEq] at this
      ext <;> simp only [Vector3d.smul] <;> linarith
  · rintro (h | h)
    · rw [h]; exact a.cross_self
    · rw [h]; exact a.cross_neg_self

theorem Vector3d.squaredNorm_pos_of_ne {a : Vector3d} (h : a ≠ ⟨0, 0, 0⟩) :
    0 < a.squaredNorm := by
  rcases a.squaredNorm_nonneg.lt_or_eq with h1 | h1
  · exact h1
  · exact absurd (Vector3d.eq_zero_of_squaredNorm h1.symm) h

theorem Vector3d.squaredNorm_neg (a : Vector3d) :
    (Vector3d.smul (-1) a).squaredNorm = a.squaredNorm := by
  simp only [Vector3d.squaredNorm, Vector3d.smul]
  ring

/-- When neither fuzzy test of `decompose_rotation` succeeds, the cross product
of the two unit vectors is not zero. -/
theorem cross_pos_of_general {a b : Vector3d} (ha : a.squaredNorm = 1) (hb : b.squaredNorm = 1)
    (hA : ¬ b.isApprox a dummy_precision)
    (hB : ¬ b.isApprox (Vector3d.smul (-1) a) dummy_precision) :
    0 < (a.cross b).squaredNorm := by
  apply Vector3d.squaredNorm_pos_of_ne
  intro h
  rcases (Vector3d.cross_eq_zero_iff ha hb).mp h with h1 | h1
  · exact hA (h1 ▸ Vector3d.isApprox_self a)
  · exact hB (h1 ▸ Vector3d.isApprox_self _)


theorem Quaterniond.one_mul (r : Quaterniond) : (Quaterniond.mk 1 0 0 0).mul r = r := by
  ext <;> simp [Quaterniond.mul]

theorem Quaterniond.mul_one (r : Quaterniond) : r.mul (Quaterniond.mk 1 0 0 0) = r := by
  ext <;> simp [Quaterniond.mul]

theorem Quaterniond.squaredNorm_one : (Quaterniond.mk 1 0 0 0).squaredNorm = 1 := by
  simp [Quaterniond.squaredNorm]

theorem Quaterniond.one_transformVector (v : Vector3d) :
    (Quaterniond.mk 1 0 0 0).transformVector v = v := by
  ext <;> simp [Quaterniond.transformVector, Quaterniond.vec, Vector3d.cross, Vector3d.smul,
    Vector3d.add]

theorem Quaterniond.norm_of_unit {q : Quaterniond} (h : q.squaredNorm = 1) : q.norm = 1 := by
  simp [Quaterniond.norm, h]

/-- Outside Case A the returned twist maps `e_q` to itself exactly. -/
theorem twist_fixes_axis {r : Quaterniond} {e_q : Vector3d}
    (hr : r.squaredNorm = 1) (he : e_q.squaredNorm = 1)
    (hA : ¬ (r.transformVector e_q).isApprox e_q dummy_precision) :
    (decompose_rotation r e_q).2.transformVector e_q = e_q := by
  have hb : (r.transformVector e_q).squaredNorm = 1 := by
    rw [squaredNorm_transformVector hr, he]
  rw [decompose_rotation_unit hr he, if_neg hA]
  split_ifs with hB
  · exact Quaterniond.one_transformVector e_q
  · obtain ⟨hp, hpa, _, _⟩ := general_p_facts he hb (cross_pos_of_general he hb hA hB)
    have hc : (general_p e_q (r.transformVector e_q)).conjugate.squaredNorm = 1 := by
      rw [Quaterniond.squaredNorm_conjugate, hp]
    show ((general_p e_q (r.transformVector e_q)).conjugate.mul r).transformVector e_q = e_q
    rw [transformVector_mul hc hr]
    nth_rewrite 2 [← hpa]
    exact transformVector_conjugate hp e_q

/-- In Case A the returned pair is the identity and `r`. -/
theorem decompose_rotation_of_A {r : Quaterniond} {e_q : Vector3d}
    (hr : r.squaredNorm = 1) (he : e_q.squaredNorm = 1)
    (hA : (r.transformVector e_q).isApprox e_q dummy_precision) :
    decompose_rotation r e_q = (⟨1, 0, 0, 0⟩, r) := by
  rw [decompose_rotation_unit hr he, if_pos hA]

/-- Both returned quaternions have squared norm 1. -/
theorem decompose_rotation_squaredNorm {r : Quaterniond} {e_q : Vector3d}
    (hr : r.squaredNorm = 1) (he : e_q.squaredNorm = 1) :
    (decompose_rotation r e_q).1.squaredNorm = 1 ∧
      (decompose_rotation r e_q).2.squaredNorm = 1 := by
  have hb : (r.transformVector e_q).squaredNorm = 1 := by
    rw [squaredNorm_transformVector hr, he]
  rw [decompose_rotation_unit hr he]
  split_ifs with hA hB
  · exact ⟨Quaterniond.squaredNorm_one, hr⟩
  · exact ⟨hr, Quaterniond.squaredNorm_one⟩
  · have hp := (general_p_facts he hb (cross_pos_of_general he hb hA hB)).1
    refine ⟨hp, ?_⟩
    show ((general_p e_q (r.transformVector e_q)).conjugate.mul r).squaredNorm = 1
    rw [Quaterniond.squaredNorm_mul, Quaterniond.squaredNorm_conjugate, hp, hr]
    ring

theorem tiny_tilt_unit : tiny_tilt.squaredNorm = 1 := by
  norm_num [tiny_tilt, Quaterniond.squaredNorm]

theorem tiny_tilt_case_A :
    (tiny_tilt.transformVector ⟨0, 0, 1⟩).isApprox ⟨0, 0, 1⟩ dummy_precision := by
  norm_num [tiny_tilt, Vector3d.isApprox, Quaterniond.transformVector, Quaterniond.vec,
    Vector3d.cross, Vector3d.smul, Vector3d.add, Vector3d.sub, Vector3d.squaredNorm,
    dummy_precision]

theorem tiny_tilt_moves : tiny_tilt.transformVector ⟨0, 0, 1⟩ ≠ ⟨0, 0, 1⟩ := by
  intro h
  have hy := congrArg Vector3d.y h
  norm_num [tiny_tilt, Quaterniond.transformVector, Quaterniond.vec,
    Vector3d.cross, Vector3d.smul, Vector3d.add] at hy

/-! ## The contract of `decompose_rotation` -/

/-- C1 (reconstruction): for a unit quaternion `r` and a unit vector `e_q`, the
pair `(p, q)` that `decompose_rotation` returns satisfies `p * q = r` exactly,
whichever of the three branches is taken. -/
theorem decompose_rotation_reconstruction (r : Quaterniond) (e_q : Vector3d)
    (hr : r.squaredNorm = 1) (he : e_q.squaredNorm = 1) :
    (decompose_rotation r e_q).1.mul (decompose_rotation r e_q).2 = r := by
  have hb : (r.transformVector e_q).squaredNorm = 1 := by
    rw [squaredNorm_transformVector hr, he]
  rw [decompose_rotation_unit hr he]
  split_ifs with hA hB
  · exact Quaterniond.one_mul r
  · exact Quaterniond.mul_one r
  · exact Quaterniond.mul_conjugate_mul
      (general_p_facts he hb (cross_pos_of_general he hb hA hB)).1 r

theorem decompose_rotation_reconstruction_witness :
    (Quaterniond.mk (3 / 5) (4 / 5) 0 0).squaredNorm = 1 ∧
      (Vector3d.mk 0 0 1).squaredNorm = 1 ∧
      (decompose_rotation ⟨3 / 5, 4 / 5, 0, 0⟩ ⟨0, 0, 1⟩).1.mul
        (decompose_rotation ⟨3 / 5, 4 / 5, 0, 0⟩ ⟨0, 0, 1⟩).2 = ⟨3 / 5, 4 / 5, 0, 0⟩ :=
  ⟨by norm_num [Quaterniond.squaredNorm], by norm_num [Vector3d.squaredNorm],
    decompose_rotation_reconstruction ⟨3 / 5, 4 / 5, 0, 0⟩ ⟨0, 0, 1⟩
      (by norm_num [Quaterniond.squaredNorm]) (by norm_num [Vector3d.squaredNorm])⟩

/-- C2 as stated fails: `tiny_tilt` and `e_q = (0,0,1)` are unit inputs on
which the fuzzy test of Case A succeeds, so `q` is `tiny_tilt` itself, and
`q * e_q = r * e_q` is not `e_q`. -/
theorem decompose_rotation_fixes_axis_counterexample :
    tiny_tilt.squaredNorm = 1 ∧ (Vector3d.mk 0 0 1).squaredNorm = 1 ∧
      (decompose_rotation tiny_tilt ⟨0, 0, 1⟩).2 = tiny_tilt ∧
      (decompose_rotation tiny_tilt ⟨0, 0, 1⟩).2.transformVector ⟨0, 0, 1⟩ ≠ ⟨0, 0, 1⟩ := by
  have he : (Vector3d.mk 0 0 1).squaredNorm = 1 := by norm_num [Vector3d.squaredNorm]
  have hd := decompose_rotation_of_A tiny_tilt_unit he tiny_tilt_case_A
  refine ⟨tiny_tilt_unit, he, by rw [hd], ?_⟩
  rw [hd]
  exact tiny_tilt_moves

/-- C2, amended: for a unit quaternion `r` and a unit vector `e_q`, the
returned `q` satisfies `q * e_q = e_q` exactly whenever Case A is not taken
(the general case and Case B); in Case A the returned `q` is `r`, so
`q * e_q = e_q` holds exactly when `r * e_q = e_q`, and in general only up to
the `isApprox` tolerance of the branch test; in every branch `q * e_q` passes
that test against `e_q`. -/
theorem decompose_rotation_fixes_axis (r : Quaterniond) (e_q : Vector3d)
    (hr : r.squaredNorm = 1) (he : e_q.squaredNorm = 1) :
    (¬ (r.transformVector e_q).isApprox e_q dummy_precision →
        (decompose_rotation r e_q).2.transformVector e_q = e_q) ∧
      ((r.transformVector e_q).isApprox e_q dummy_precision →
        (decompose_rotation r e_q).2 = r ∧
          ((decompose_rotation r e_q).2.transformVector e_q = e_q ↔
            r.transformVector e_q = e_q)) ∧
      ((decompose_rotation r e_q).2.transformVector e_q).isApprox e_q dummy_precision := by
  refine ⟨twist_fixes_axis hr he, fun hA => ?_, ?_⟩
  · rw [decompose_rotation_of_A hr he hA]
    exact ⟨rfl, Iff.rfl⟩
  · by_cases hA : (r.transformVector e_q).isApprox e_q dummy_precision
    · rw [decompose_rotation_of_A hr he hA]
      exact hA
    · rw [twist_fixes_axis hr he hA]
      exact Vector3d.isApprox_self e_q

theorem decompose_rotation_fixes_axis_witness :
    (Quaterniond.mk (3 / 5) (4 / 5) 0 0).squaredNorm = 1 ∧
      (Vector3d.mk 0 0 1).squaredNorm = 1 ∧
      ((decompose_rotation ⟨3 / 5, 4 / 5, 0, 0⟩ ⟨0, 0, 1⟩).2.transformVector
        ⟨0, 0, 1⟩).isApprox ⟨0, 0, 1⟩ dummy_precision :=
  ⟨by norm_num [Quaterniond.squaredNorm], by norm_num [Vector3d.squaredNorm],
    (decompose_rotation_fixes_axis ⟨3 / 5, 4 / 5, 0, 0⟩ ⟨0, 0, 1⟩
      (by norm_num [Quaterniond.squaredNorm]) (by norm_num [Vector3d.squaredNorm])).2.2⟩

/-- C3 (unit norm): for a unit quaternion `r` and a unit vector `e_q`, both
returned quaternions have norm 1, whichever branch is taken. -/
theorem decompose_rotation_unit_norm (r : Quaterniond) (e_q : Vector3d)
    (hr : r.squaredNorm = 1) (he : e_q.squaredNorm = 1) :
    (decompose_rotation r e_q).1.norm = 1 ∧ (decompose_rotation r e_q).2.norm = 1 :=
  ⟨Quaterniond.norm_of_unit (decompose_rotation_squaredNorm hr he).1,
    Quaterniond.norm_of_unit (decompose_rotation_squaredNorm hr he).2⟩

theorem decompose_rotation_unit_norm_witness :
    (Quaterniond.mk (3 / 5) (4 / 5) 0 0).squaredNorm = 1 ∧
      (Vector3d.mk 0 0 1).squaredNorm = 1 ∧
      (decompose_rotation ⟨3 / 5, 4 / 5, 0, 0⟩ ⟨0, 0, 1⟩).1.norm = 1 ∧
      (decompose_rotation ⟨3 / 5, 4 / 5, 0, 0⟩ ⟨0, 0, 1⟩).2.norm = 1 :=
  ⟨by norm_num [Quaterniond.squaredNorm], by norm_num [Vector3d.squaredNorm],
    decompose_rotation_unit_norm ⟨3 / 5, 4 / 5, 0, 0⟩ ⟨0, 0, 1⟩
      (by norm_num [Quaterniond.squaredNorm]) (by norm_num [Vector3d.squaredNorm])⟩


theorem test_e_p_dot {p : Quaterniond} {e : Vector3d} (h : p.vec.dot e = 0) :
    (test_e_p p).dot e = 0 := by
  simp only [Quaterniond.vec, Vector3d.dot] at h
  simp only [test_e_p]
  split_ifs with h0
  · have : p.x / Real.sin (2 * acos p.w / 2) * e.x + p.y / Real.sin (2 * acos p.w / 2) * e.y
        + p.z / Real.sin (2 * acos p.w / 2) * e.z
        = (p.x * e.x + p.y * e.y + p.z * e.z) / Real.sin (2 * acos p.w / 2) := by ring
    simp only [Vector3d.dot, this, h, zero_div]
  · simpa only [Vector3d.dot] using h

/-- C4 (orthogonality): for a unit quaternion `r` and a unit vector `e_q` on
which the general branch is taken (neither `isApprox` test succeeds, and then
`r * e_q` is neither `e_q` nor `-e_q`), the vector part of the returned `p` is
orthogonal to `e_q`, and so is the axis `e_p` that `test` reads back from
`p`. -/
theorem decompose_rotation_orthogonal (r : Quaterniond) (e_q : Vector3d)
    (hr : r.squaredNorm = 1) (he : e_q.squaredNorm = 1)
    (hA : ¬ (r.transformVector e_q).isApprox e_q dummy_precision)
    (hB : ¬ (r.transformVector e_q).isApprox (Vector3d.smul (-1) e_q) dummy_precision) :
    (r.transformVector e_q ≠ e_q ∧ r.transformVector e_q ≠ Vector3d.smul (-1) e_q) ∧
      (decompose_rotation r e_q).1.vec.dot e_q = 0 ∧
      (test_e_p (decompose_rotation r e_q).1).dot e_q = 0 := by
  have hb : (r.transformVector e_q).squaredNorm = 1 := by
    rw [squaredNorm_transformVector hr, he]
  have hne : r.transformVector e_q ≠ e_q ∧ r.transformVector e_q ≠ Vector3d.smul (-1) e_q := by
    constructor
    · intro h
      apply hA
      rw [h]
      exact Vector3d.isApprox_self e_q
    · intro h
      apply hB
      rw [h]
      exact Vector3d.isApprox_self _
  rw [decompose_rotation_unit hr he, if_neg hA, if_neg hB]
  have h := (general_p_facts he hb (cross_pos_of_general he hb hA hB)).2.2.1
  exact ⟨hne, h, test_e_p_dot h⟩

theorem sample_general_not_A :
    ¬ ((Quaterniond.mk (3 / 5) (4 / 5) 0 0).transformVector ⟨0, 0, 1⟩).isApprox ⟨0, 0, 1⟩
      dummy_precision := by
  norm_num [Vector3d.isApprox, Quaterniond.transformVector, Quaterniond.vec, Vector3d.cross,
    Vector3d.smul, Vector3d.add, Vector3d.sub, Vector3d.squaredNorm, dummy_precision]

theorem sample_general_not_B :
    ¬ ((Quaterniond.mk (3 / 5) (4 / 5) 0 0).transformVector ⟨0, 0, 1⟩).isApprox
      (Vector3d.smul (-1) ⟨0, 0, 1⟩) dummy_precision := by
  norm_num [Vector3d.isApprox, Quaterniond.transformVector, Quaterniond.vec, Vector3d.cross,
    Vector3d.smul, Vector3d.add, Vector3d.sub, Vector3d.squaredNorm, dummy_precision]

theorem decompose_rotation_orthogonal_witness :
    (Quaterniond.mk (3 / 5) (4 / 5) 0 0).squaredNorm = 1 ∧
      (Vector3d.mk 0 0 1).squaredNorm = 1 ∧
      (decompose_rotation ⟨3 / 5, 4 / 5, 0, 0⟩ ⟨0, 0, 1⟩).1.vec.dot ⟨0, 0, 1⟩ = 0 ∧
      (test_e_p (decompose_rotation ⟨3 / 5, 4 / 5, 0, 0⟩ ⟨0, 0, 1⟩).1).dot ⟨0, 0, 1⟩ = 0 :=
  ⟨by norm_num [Quaterniond.squaredNorm], by norm_num [Vector3d.squaredNorm],
    (decompose_rotation_orthogonal ⟨3 / 5, 4 / 5, 0, 0⟩ ⟨0, 0, 1⟩
      (by norm_num [Quaterniond.squaredNorm]) (by norm_num [Vector3d.squaredNorm])
      sample_general_not_A sample_general_not_B).2⟩

/-- C5 (Case A, no tilt): for a unit quaternion `r` and a unit vector `e_q`
with `r * e_q = e_q`, `decompose_rotation` returns the identity as `p` and `r`
as `q`. -/
theorem decompose_rotation_case_A (r : Quaterniond) (e_q : Vector3d)
    (hr : r.squaredNorm = 1) (he : e_q.squaredNorm = 1)
    (h : r.transformVector e_q = e_q) :
    decompose_rotation r e_q = (⟨1, 0, 0, 0⟩, r) := by
  have hA : (r.transformVector e_q).isApprox e_q dummy_precision := by
    rw [h]; exact Vector3d.isApprox_self e_q
  rw [decompose_rotation_unit hr he, if_pos hA]

/-- The two Case A scenarios of the driver: `r = (1,0,0,0)` and `r = (0,1,0,0)`
with `e_q = (1,0,0)`. -/
theorem decompose_rotation_case_A_witness :
    (Quaterniond.mk 0 1 0 0).squaredNorm = 1 ∧ (Vector3d.mk 1 0 0).squaredNorm = 1 ∧
      (Quaterniond.mk 0 1 0 0).transformVector ⟨1, 0, 0⟩ = ⟨1, 0, 0⟩ ∧
      decompose_rotation ⟨0, 1, 0, 0⟩ ⟨1, 0, 0⟩ = (⟨1, 0, 0, 0⟩, ⟨0, 1, 0, 0⟩) ∧
      decompose_rotation ⟨1, 0, 0, 0⟩ ⟨1, 0, 0⟩ = (⟨1, 0, 0, 0⟩, ⟨1, 0, 0, 0⟩) :=
  ⟨by norm_num [Quaterniond.squaredNorm], by norm_num [Vector3d.squaredNorm],
    by norm_num [Quaterniond.transformVector, Quaterniond.vec, Vector3d.cross,
      Vector3d.smul, Vector3d.add],
    decompose_rotation_case_A ⟨0, 1, 0, 0⟩ ⟨1, 0, 0⟩
      (by norm_num [Quaterniond.squaredNorm]) (by norm_num [Vector3d.squaredNorm])
      (by norm_num [Quaterniond.transformVector, Quaterniond.vec, Vector3d.cross,
        Vector3d.smul, Vector3d.add]),
    decompose_rotation_case_A ⟨1, 0, 0, 0⟩ ⟨1, 0, 0⟩
      (by norm_num [Quaterniond.squaredNorm]) (by norm_num [Vector3d.squaredNorm])
      (by norm_num [Quaterniond.transformVector, Quaterniond.vec, Vector3d.cross,
        Vector3d.smul, Vector3d.add])⟩

theorem Vector3d.not_isApprox_neg {a : Vector3d} (ha : a.squaredNorm = 1) :
    ¬ (Vector3d.smul (-1) a).isApprox a dummy_precision := by
  have h4 : ((Vector3d.smul (-1) a).sub a).squaredNorm = 4 := by
    simp only [Vector3d.squaredNorm, Vector3d.sub, Vector3d.smul] at *
    linear_combination 4 * ha
  simp only [Vector3d.isApprox, h4, Vector3d.squaredNorm_neg, ha, min_self]
  norm_num [dummy_precision]

/-- C6 (Case B, full flip): for a unit quaternion `r` and a unit vector `e_q`
with `r * e_q = -e_q`, `decompose_rotation` returns `r` as `p` and the identity
as `q`. -/
theorem decompose_rotation_case_B (r : Quaterniond) (e_q : Vector3d)
    (hr : r.squaredNorm = 1) (he : e_q.squaredNorm = 1)
    (h : r.transformVector e_q = Vector3d.smul (-1) e_q) :
    decompose_rotation r e_q = (r, ⟨1, 0, 0, 0⟩) := by
  rw [decompose_rotation_unit hr he, h, if_neg (Vector3d.not_isApprox_neg he),
    if_pos (Vector3d.isApprox_self _)]

/-- The Case B scenario of the driver: `r = (0,1,0,0)` with `e_q = (0,0,1)`. -/
theorem decompose_rotation_case_B_witness :
    (Quaterniond.mk 0 1 0 0).squaredNorm = 1 ∧ (Vector3d.mk 0 0 1).squaredNorm = 1 ∧
      (Quaterniond.mk 0 1 0 0).transformVector ⟨0, 0, 1⟩ = Vector3d.smul (-1) ⟨0, 0, 1⟩ ∧
      decompose_rotation ⟨0, 1, 0, 0⟩ ⟨0, 0, 1⟩ = (⟨0, 1, 0, 0⟩, ⟨1, 0, 0, 0⟩) :=
  ⟨by norm_num [Quaterniond.squaredNorm], by norm_num [Vector3d.squaredNorm],
    by norm_num [Quaterniond.transformVector, Quaterniond.vec, Vector3d.cross,
      Vector3d.smul, Vector3d.add],
    decompose_rotation_case_B ⟨0, 1, 0, 0⟩ ⟨0, 0, 1⟩
      (by norm_num [Quaterniond.squaredNorm]) (by norm_num [Vector3d.squaredNorm])
      (by norm_num [Quaterniond.transformVector, Quaterniond.vec, Vector3d.cross,
        Vector3d.smul, Vector3d.add])⟩


/-- C7 as stated fails: `tiny_tilt` and `e_q = (0,0,1)` are unit inputs on
which the fuzzy test of Case A succeeds, so `p` is the identity and `p * e_q`
is `e_q`, while `r * e_q` is a different vector. -/
theorem decompose_rotation_swing_counterexample :
    tiny_tilt.squaredNorm = 1 ∧ (Vector3d.mk 0 0 1).squaredNorm = 1 ∧
      (decompose_rotation tiny_tilt ⟨0, 0, 1⟩).1 = ⟨1, 0, 0, 0⟩ ∧
      (decompose_rotation tiny_tilt ⟨0, 0, 1⟩).1.transformVector ⟨0, 0, 1⟩
        ≠ tiny_tilt.transformVector ⟨0, 0, 1⟩ := by
  have he : (Vector3d.mk 0 0 1).squaredNorm = 1 := by norm_num [Vector3d.squaredNorm]
  have hd : decompose_rotation tiny_tilt ⟨0, 0, 1⟩ = (⟨1, 0, 0, 0⟩, tiny_tilt) := by
    rw [decompose_rotation_unit tiny_tilt_unit he, if_pos tiny_tilt_case_A]
  refine ⟨tiny_tilt_unit, he, by rw [hd], ?_⟩
  rw [hd]
  simp only [Quaterniond.one_transformVector]
  exact fun h => tiny_tilt_moves h.symm

/-- C7, amended: for a unit quaternion `r` and a unit vector `e_q`, the
returned `p` satisfies `p * e_q = r * e_q` exactly whenever Case A is not taken
(Case B and the general case); in Case A `p` is the identity, `p * e_q = e_q`,
and `r * e_q` agrees with it up to the `isApprox` tolerance of the branch
test. -/
theorem decompose_rotation_swing_carries_tilt (r : Quaterniond) (e_q : Vector3d)
    (hr : r.squaredNorm = 1) (he : e_q.squaredNorm = 1) :
    (¬ (r.transformVector e_q).isApprox e_q dummy_precision →
        (decompose_rotation r e_q).1.transformVector e_q = r.transformVector e_q) ∧
      ((r.transformVector e_q).isApprox e_q dummy_precision →
        (decompose_rotation r e_q).1 = ⟨1, 0, 0, 0⟩ ∧
          (decompose_rotation r e_q).1.transformVector e_q = e_q) ∧
      (r.transformVector e_q).isApprox
        ((decompose_rotation r e_q).1.transformVector e_q) dummy_precision := by
  have hb : (r.transformVector e_q).squaredNorm = 1 := by
    rw [squaredNorm_transformVector hr, he]
  rw [decompose_rotation_unit hr he]
  split_ifs with hA hB
  · refine ⟨fun h => absurd hA h, fun _ => ⟨rfl, Quaterniond.one_transformVector e_q⟩, ?_⟩
    simp only [Quaterniond.one_transformVector]
    exact hA
  · exact ⟨fun _ => rfl, fun h => absurd h hA, Vector3d.isApprox_self _⟩
  · have h1 := (general_p_facts he hb (cross_pos_of_general he hb hA hB)).2.1
    refine ⟨fun _ => h1, fun h => absurd h hA, ?_⟩
    simp only [h1]
    exact Vector3d.isApprox_self _

theorem decompose_rotation_swing_carries_tilt_witness :
    (Quaterniond.mk (3 / 5) (4 / 5) 0 0).squaredNorm = 1 ∧
      (Vector3d.mk 0 0 1).squaredNorm = 1 ∧
      (decompose_rotation ⟨3 / 5, 4 / 5, 0, 0⟩ ⟨0, 0, 1⟩).1.transformVector ⟨0, 0, 1⟩
        = (Quaterniond.mk (3 / 5) (4 / 5) 0 0).transformVector ⟨0, 0, 1⟩ :=
  ⟨by norm_num [Quaterniond.squaredNorm], by norm_num [Vector3d.squaredNorm],
    (decompose_rotation_swing_carries_tilt ⟨3 / 5, 4 / 5, 0, 0⟩ ⟨0, 0, 1⟩
      (by norm_num [Quaterniond.squaredNorm]) (by norm_num [Vector3d.squaredNorm])).1
      sample_general_not_A⟩

/-! ## Normalization of the inputs -/

theorem Quaterniond.squaredNorm_pos {q : Quaterniond} (h : q ≠ ⟨0, 0, 0, 0⟩) :
    0 < q.squaredNorm := by
  have h0 : 0 ≤ q.squaredNorm := by
    simp only [Quaterniond.squaredNorm]
    nlinarith [mul_self_nonneg q.w, mul_self_nonneg q.x, mul_self_nonneg q.y,
      mul_self_nonneg q.z]
  rcases h0.lt_or_eq with h1 | h1
  · exact h1
  · exfalso
    apply h
    simp only [Quaterniond.squaredNorm] at h1
    ext <;> simp <;>
      nlinarith [mul_self_nonneg q.w, mul_self_nonneg q.x, mul_self_nonneg q.y,
        mul_self_nonneg q.z]

theorem Quaterniond.normalized_smul_pos {q : Quaterniond} (hq : 0 < q.squaredNorm) {a : ℝ}
    (ha : 0 < a) : (Quaterniond.smul a q).normalized = q.normalized := by
  have hs : (Quaterniond.smul a q).squaredNorm = a * a * q.squaredNorm := by
    simp only [Quaterniond.smul, Quaterniond.squaredNorm]
    ring
  have hpos : 0 < (Quaterniond.smul a q).squaredNorm := by
    rw [hs]; positivity
  have hsqrt : Real.sqrt (a * a * q.squaredNorm) = a * Real.sqrt q.squaredNorm := by
    rw [Real.sqrt_mul (mul_self_nonneg a), Real.sqrt_mul_self ha.le]
  simp only [Quaterniond.normalized, if_pos hpos, if_pos hq]
  rw [hs, hsqrt]
  simp only [Quaterniond.smul]
  ext <;> simp only [] <;> exact mul_div_mul_left _ _ ha.ne'

theorem Vector3d.normalized_smul {v : Vector3d} (hv : 0 < v.squaredNorm) {a : ℝ}
    (ha : 0 < a) : (Vector3d.smul a v).normalized = v.normalized := by
  have hs : (Vector3d.smul a v).squaredNorm = a * a * v.squaredNorm := by
    simp only [Vector3d.smul, Vector3d.squaredNorm]
    ring
  have hpos : 0 < (Vector3d.smul a v).squaredNorm := by
    rw [hs]; positivity
  have hsqrt : Real.sqrt (a * a * v.squaredNorm) = a * Real.sqrt v.squaredNorm := by
    rw [Real.sqrt_mul (mul_self_nonneg a), Real.sqrt_mul_self ha.le]
  simp only [Vector3d.normalized, if_pos hpos, if_pos hv]
  rw [hs, hsqrt]
  simp only [Vector3d.smul]
  ext <;> simp only [] <;> exact mul_div_mul_left _ _ ha.ne'

theorem decompose_rotation_congr {r r' : Quaterniond} {e e' : Vector3d}
    (hr : r.normalized = r'.normalized) (he : e.normalized = e'.normalized) :
    decompose_rotation r e = decompose_rotation r' e' := by
  simp only [decompose_rotation, hr, he]

/-- C8 (inputs need not be normalized): for a non-zero quaternion `r`, a
non-zero vector `e_q` and positive reals `a`, `b`, `decompose_rotation` returns
on `(a * r, b * e_q)` the pair it returns on `(r / ‖r‖, e_q / ‖e_q‖)`, and the
pair it returns on `(r, e_q)`. -/
theorem decompose_rotation_scale_invariant (r : Quaterniond) (e_q : Vector3d) (a b : ℝ)
    (hr : r ≠ ⟨0, 0, 0, 0⟩) (he : e_q ≠ ⟨0, 0, 0⟩) (ha : 0 < a) (hb : 0 < b) :
    decompose_rotation (Quaterniond.smul a r) (Vector3d.smul b e_q)
        = decompose_rotation (Quaterniond.smul (1 / r.norm) r)
            (Vector3d.smul (1 / e_q.norm) e_q) ∧
      decompose_rotation (Quaterniond.smul a r) (Vector3d.smul b e_q)
        = decompose_rotation r e_q := by
  have hrp := Quaterniond.squaredNorm_pos hr
  have hep := Vector3d.squaredNorm_pos_of_ne he
  have hrn : 0 < 1 / r.norm := one_div_pos.mpr (Real.sqrt_pos.mpr hrp)
  have hen : 0 < 1 / e_q.norm := one_div_pos.mpr (Real.sqrt_pos.mpr hep)
  constructor
  · apply decompose_rotation_congr
    · rw [Quaterniond.normalized_smul_pos hrp ha, Quaterniond.normalized_smul_pos hrp hrn]
    · rw [Vector3d.normalized_smul hep hb, Vector3d.normalized_smul hep hen]
  · exact decompose_rotation_congr (Quaterniond.normalized_smul_pos hrp ha)
      (Vector3d.normalized_smul hep hb)

theorem decompose_rotation_scale_invariant_witness :
    (Quaterniond.mk 3 4 0 0) ≠ ⟨0, 0, 0, 0⟩ ∧ (Vector3d.mk 0 0 2) ≠ ⟨0, 0, 0⟩ ∧
      decompose_rotation (Quaterniond.smul 5 ⟨3, 4, 0, 0⟩) (Vector3d.smul 7 ⟨0, 0, 2⟩)
        = decompose_rotation ⟨3, 4, 0, 0⟩ ⟨0, 0, 2⟩ :=
  ⟨by simp, by simp,
    (decompose_rotation_scale_invariant ⟨3, 4, 0, 0⟩ ⟨0, 0, 2⟩ 5 7 (by simp) (by simp)
      (by norm_num) (by norm_num)).2⟩


/-! ## The twist is a rotation about `e_q` -/

/-- A unit quaternion that maps a vector to itself has its vector part
parallel to that vector. -/
theorem vec_cross_eq_zero_of_fixes {q : Quaterniond} {a : Vector3d}
    (hq : q.squaredNorm = 1) (h : q.transformVector a = a) :
    q.vec.cross a = ⟨0, 0, 0⟩ := by
  have key : (q.vec.cross a).squaredNorm * q.squaredNorm
      = q.w / 2 * ((q.transformVector a).sub a).dot (q.vec.cross a)
        + 1 / 2 * ((q.transformVector a).sub a).dot (q.vec.cross (q.vec.cross a)) := by
    simp only [Quaterniond.transformVector, Quaterniond.vec, Quaterniond.squaredNorm,
      Vector3d.cross, Vector3d.smul, Vector3d.add, Vector3d.sub, Vector3d.dot,
      Vector3d.squaredNorm]
    ring
  have hz : (Vector3d.sub a a) = ⟨0, 0, 0⟩ := by
    ext <;> simp [Vector3d.sub]
  rw [h, hz, hq] at key
  apply Vector3d.eq_zero_of_squaredNorm
  simpa [Vector3d.dot] using key

/-- A quaternion whose vector part is parallel to the unit vector `a` is
`(c, s * a)` with `c` its scalar part and `s` the component of its vector part
along `a`. -/
theorem eq_axis_form_of_cross_eq_zero {q : Quaterniond} {a : Vector3d}
    (ha : a.squaredNorm = 1) (h : q.vec.cross a = ⟨0, 0, 0⟩) :
    q = ⟨q.w, q.vec.dot a * a.x, q.vec.dot a * a.y, q.vec.dot a * a.z⟩ := by
  have hx := congrArg Vector3d.x h
  have hy := congrArg Vector3d.y h
  have hz := congrArg Vector3d.z h
  simp only [Quaterniond.vec, Vector3d.cross] at hx hy hz
  simp only [Vector3d.squaredNorm] at ha
  ext
  · rfl
  · simp only [Quaterniond.vec, Vector3d.dot]
    linear_combination a.y * hz - a.z * hy - q.x * ha
  · simp only [Quaterniond.vec, Vector3d.dot]
    linear_combination a.z * hx - a.x * hz - q.y * ha
  · simp only [Quaterniond.vec, Vector3d.dot]
    linear_combination a.x * hy - a.y * hx - q.z * ha

/-- C9 (the twist is a pure rotation about `e_q`): for a unit quaternion `r`
and a unit vector `e_q` on which the Case A test agrees with exact equality
(it succeeds only if `r * e_q = e_q`), the vector part of the returned `q` has
zero cross product with `e_q`, and `q = (c, s * e_q)` for reals `c`, `s` with
`c^2 + s^2 = 1`. -/
theorem decompose_rotation_twist_about_axis (r : Quaterniond) (e_q : Vector3d)
    (hr : r.squaredNorm = 1) (he : e_q.squaredNorm = 1)
    (hexact : (r.transformVector e_q).isApprox e_q dummy_precision →
      r.transformVector e_q = e_q) :
    (decompose_rotation r e_q).2.vec.cross e_q = ⟨0, 0, 0⟩ ∧
      ∃ c s : ℝ, c ^ 2 + s ^ 2 = 1 ∧
        (decompose_rotation r e_q).2 = ⟨c, s * e_q.x, s * e_q.y, s * e_q.z⟩ := by
  have hfix : (decompose_rotation r e_q).2.transformVector e_q = e_q := by
    by_cases hA : (r.transformVector e_q).isApprox e_q dummy_precision
    · rw [decompose_rotation_of_A hr he hA]
      exact hexact hA
    · exact twist_fixes_axis hr he hA
  have hunit : (decompose_rotation r e_q).2.squaredNorm = 1 :=
    (decompose_rotation_squaredNorm hr he).2
  have hcross := vec_cross_eq_zero_of_fixes hunit hfix
  refine ⟨hcross, (decompose_rotation r e_q).2.w,
    (decompose_rotation r e_q).2.vec.dot e_q, ?_, eq_axis_form_of_cross_eq_zero he hcross⟩
  have hform := eq_axis_form_of_cross_eq_zero he hcross
  rw [hform] at hunit
  simp only [Quaterniond.squaredNorm, Vector3d.squaredNorm] at hunit he
  set s := (decompose_rotation r e_q).2.vec.dot e_q
  set c := (decompose_rotation r e_q).2.w
  linear_combination hunit - s ^ 2 * he

theorem decompose_rotation_twist_about_axis_witness :
    (Quaterniond.mk (3 / 5) (4 / 5) 0 0).squaredNorm = 1 ∧
      (Vector3d.mk 0 0 1).squaredNorm = 1 ∧
      (decompose_rotation ⟨3 / 5, 4 / 5, 0, 0⟩ ⟨0, 0, 1⟩).2.vec.cross ⟨0, 0, 1⟩ = ⟨0, 0, 0⟩ :=
  ⟨by norm_num [Quaterniond.squaredNorm], by norm_num [Vector3d.squaredNorm],
    (decompose_rotation_twist_about_axis ⟨3 / 5, 4 / 5, 0, 0⟩ ⟨0, 0, 1⟩
      (by norm_num [Quaterniond.squaredNorm]) (by norm_num [Vector3d.squaredNorm])
      (fun h => absurd h sample_general_not_A)).1⟩

/-! ## The swing axis of the general case -/

theorem Vector3d.squaredNorm_normalized {v : Vector3d} (hv : 0 < v.squaredNorm) :
    v.normalized.squaredNorm = 1 := by
  have hn : Real.sqrt v.squaredNorm * Real.sqrt v.squaredNorm = v.squaredNorm :=
    Real.mul_self_sqrt hv.le
  have hsplit : v.normalized.squaredNorm
      = v.squaredNorm / (Real.sqrt v.squaredNorm * Real.sqrt v.squaredNorm) := by
    simp only [Vector3d.normalized, if_pos hv]
    generalize Real.sqrt v.squaredNorm = n
    simp only [Vector3d.squaredNorm]
    ring
  rw [hsplit, hn]
  exact div_self hv.ne'

/-- C10 (the swing axis is well defined): for a unit quaternion `r` and a unit
vector `e_q`, the cross product `e_q × (r * e_q)` is zero exactly when
`r * e_q = e_q` or `r * e_q = -e_q`; so when neither Case A nor Case B is
taken, the length by which `normalized` divides is not zero and `e_p` is a
unit vector. -/
theorem decompose_rotation_axis_defined (r : Quaterniond) (e_q : Vector3d)
    (hr : r.squaredNorm = 1) (he : e_q.squaredNorm = 1) :
    (e_q.cross (r.transformVector e_q) = ⟨0, 0, 0⟩ ↔
        r.transformVector e_q = e_q ∨ r.transformVector e_q = Vector3d.smul (-1) e_q) ∧
      (¬ (r.transformVector e_q).isApprox e_q dummy_precision →
        ¬ (r.transformVector e_q).isApprox (Vector3d.smul (-1) e_q) dummy_precision →
          (e_q.cross (r.transformVector e_q)).norm ≠ 0 ∧
            (e_q.cross (r.transformVector e_q)).normalized.squaredNorm = 1 ∧
            (e_q.cross (r.transformVector e_q)).normalized.norm = 1) := by
  have hb : (r.transformVector e_q).squaredNorm = 1 := by
    rw [squaredNorm_transformVector hr, he]
  refine ⟨Vector3d.cross_eq_zero_iff he hb, fun hA hB => ?_⟩
  have hpos := cross_pos_of_general he hb hA hB
  have h1 := Vector3d.squaredNorm_normalized hpos
  refine ⟨(Real.sqrt_pos.mpr hpos).ne', h1, ?_⟩
  simp [Vector3d.norm, h1]

theorem decompose_rotation_axis_defined_witness :
    (Quaterniond.mk (3 / 5) (4 / 5) 0 0).squaredNorm = 1 ∧
      (Vector3d.mk 0 0 1).squaredNorm = 1 ∧
      ((Vector3d.mk 0 0 1).cross
        ((Quaterniond.mk (3 / 5) (4 / 5) 0 0).transformVector ⟨0, 0, 1⟩)).normalized.norm = 1 :=
  ⟨by norm_num [Quaterniond.squaredNorm], by norm_num [Vector3d.squaredNorm],
    ((decompose_rotation_axis_defined ⟨3 / 5, 4 / 5, 0, 0⟩ ⟨0, 0, 1⟩
      (by norm_num [Quaterniond.squaredNorm]) (by norm_num [Vector3d.squaredNorm])).2
      sample_general_not_A sample_general_not_B).2.2⟩


/-! ## The swing angle and the closed form of the swing -/

/-- In the general branch the dot product of the two unit vectors lies
strictly between `-1` and `1`. -/
theorem dot_strict_of_cross_pos {a b : Vector3d} (ha : a.squaredNorm = 1)
    (hb : b.squaredNorm = 1) (hpos : 0 < (a.cross b).squaredNorm) :
    -1 < a.dot b ∧ a.dot b < 1 := by
  have hcr := Vector3d.squaredNorm_cross a b
  rw [ha, hb] at hcr
  constructor <;> nlinarith

theorem dot_bounds {a b : Vector3d} (ha : a.squaredNorm = 1) (hb : b.squaredNorm = 1) :
    -1 ≤ a.dot b ∧ a.dot b ≤ 1 := by
  have hd := Vector3d.dot_sq_le ha hb
  constructor <;> nlinarith

/-- The general-case swing in closed form, and as the normalization of the
quaternion `(1 + d, c)`. -/
theorem general_p_closed_form {a b : Vector3d} (ha : a.squaredNorm = 1)
    (hb : b.squaredNorm = 1) (hpos : 0 < (a.cross b).squaredNorm) :
    general_p a b = spec_shortest_arc a b ∧
      general_p a b = (Quaterniond.mk (1 + a.dot b) (a.cross b).x (a.cross b).y
        (a.cross b).z).normalized := by
  obtain ⟨C, k, hshape, h1, h2, h3, hC, _⟩ := general_p_shape ha hb hpos
  have hcr := Vector3d.squaredNorm_cross a b
  rw [ha, hb] at hcr
  have hCC : (1 + a.dot b) / 2 = C * C := by linarith
  have hw : Real.sqrt ((1 + a.dot b) / 2) = C := by
    rw [hCC, Real.sqrt_mul_self hC.le]
  have h2C : 2 * (1 + a.dot b) = (2 * C) * (2 * C) := by linarith
  have hs : Real.sqrt (2 * (1 + a.dot b)) = 2 * C := by
    rw [h2C, Real.sqrt_mul_self (by linarith)]
  have hk : ∀ t : ℝ, k * t = t / (2 * C) := by
    intro t
    field_simp
    linear_combination t * h1
  have hsq : (Quaterniond.mk (1 + a.dot b) (a.cross b).x (a.cross b).y
      (a.cross b).z).squaredNorm = 2 * (1 + a.dot b) := by
    simp only [Quaterniond.squaredNorm]
    simp only [Vector3d.squaredNorm] at hcr
    linear_combination hcr
  have hsqpos : 0 < (Quaterniond.mk (1 + a.dot b) (a.cross b).x (a.cross b).y
      (a.cross b).z).squaredNorm := by
    rw [hsq, h2C]
    positivity
  constructor
  · rw [hshape, spec_shortest_arc, hw, hs, hk, hk, hk]
  · rw [hshape, Quaterniond.normalized, if_pos hsqpos, hsq, hs, hk, hk, hk]
    have hw2 : (1 + a.dot b) / (2 * C) = C := by
      field_simp
      linarith
    simp only [hw2]

/-- C14 (closed form without trigonometry): for a unit quaternion `r` and a
unit vector `e_q` on which the general branch is taken, with
`d = e_q · (r * e_q)` and `c = e_q × (r * e_q)`, the returned `p` has scalar
part `sqrt((1 + d) / 2)` and vector part `c / sqrt(2 * (1 + d))`, and it is the
normalization of the quaternion `(1 + d, c)`. -/
theorem decompose_rotation_shortest_arc (r : Quaterniond) (e_q : Vector3d)
    (hr : r.squaredNorm = 1) (he : e_q.squaredNorm = 1)
    (hA : ¬ (r.transformVector e_q).isApprox e_q dummy_precision)
    (hB : ¬ (r.transformVector e_q).isApprox (Vector3d.smul (-1) e_q) dummy_precision) :
    (decompose_rotation r e_q).1 = spec_shortest_arc e_q (r.transformVector e_q) ∧
      (decompose_rotation r e_q).1 =
        (Quaterniond.mk (1 + e_q.dot (r.transformVector e_q))
          (e_q.cross (r.transformVector e_q)).x (e_q.cross (r.transformVector e_q)).y
          (e_q.cross (r.transformVector e_q)).z).normalized := by
  have hb : (r.transformVector e_q).squaredNorm = 1 := by
    rw [squaredNorm_transformVector hr, he]
  rw [decompose_rotation_unit hr he, if_neg hA, if_neg hB]
  exact general_p_closed_form he hb (cross_pos_of_general he hb hA hB)

theorem decompose_rotation_shortest_arc_witness :
    (Quaterniond.mk (3 / 5) (4 / 5) 0 0).squaredNorm = 1 ∧
      (Vector3d.mk 0 0 1).squaredNorm = 1 ∧
      (decompose_rotation ⟨3 / 5, 4 / 5, 0, 0⟩ ⟨0, 0, 1⟩).1
        = spec_shortest_arc ⟨0, 0, 1⟩
          ((Quaterniond.mk (3 / 5) (4 / 5) 0 0).transformVector ⟨0, 0, 1⟩) :=
  ⟨by norm_num [Quaterniond.squaredNorm], by norm_num [Vector3d.squaredNorm],
    (decompose_rotation_shortest_arc ⟨3 / 5, 4 / 5, 0, 0⟩ ⟨0, 0, 1⟩
      (by norm_num [Quaterniond.squaredNorm]) (by norm_num [Vector3d.squaredNorm])
      sample_general_not_A sample_general_not_B).1⟩


/-! ## The quarter-turn scenario of the driver -/

theorem sqrt_two_mul_self : Real.sqrt 2 * Real.sqrt 2 = 2 :=
  Real.mul_self_sqrt (by norm_num)

theorem inv_sqrt_two_mul_self : 1 / Real.sqrt 2 * (1 / Real.sqrt 2) = 1 / 2 := by
  rw [div_mul_div_comm, sqrt_two_mul_self]
  norm_num

theorem sqrt_two_div_two : Real.sqrt 2 / 2 = 1 / Real.sqrt 2 := by
  have hpos : 0 < Real.sqrt 2 := Real.sqrt_pos.mpr (by norm_num)
  rw [div_eq_div_iff (by norm_num) hpos.ne']
  linarith [sqrt_two_mul_self]

theorem quarter_turn_unit : quarter_turn.squaredNorm = 1 := by
  simp only [quarter_turn, Quaterniond.squaredNorm]
  linear_combination 2 * inv_sqrt_two_mul_self

theorem quarter_turn_transform : quarter_turn.transformVector ⟨0, 0, 1⟩ = ⟨0, -1, 0⟩ := by
  have h := inv_sqrt_two_mul_self
  ext
  · simp [quarter_turn, Quaterniond.transformVector, Quaterniond.vec, Vector3d.cross,
      Vector3d.smul, Vector3d.add]
  · simp only [quarter_turn, Quaterniond.transformVector, Quaterniond.vec, Vector3d.cross,
      Vector3d.smul, Vector3d.add]
    linear_combination (-2) * h
  · simp only [quarter_turn, Quaterniond.transformVector, Quaterniond.vec, Vector3d.cross,
      Vector3d.smul, Vector3d.add]
    linear_combination (-2) * h

theorem quarter_turn_not_A :
    ¬ (quarter_turn.transformVector ⟨0, 0, 1⟩).isApprox ⟨0, 0, 1⟩ dummy_precision := by
  rw [quarter_turn_transform]
  norm_num [Vector3d.isApprox, Vector3d.sub, Vector3d.squaredNorm, dummy_precision]

theorem quarter_turn_not_B :
    ¬ (quarter_turn.transformVector ⟨0, 0, 1⟩).isApprox (Vector3d.smul (-1) ⟨0, 0, 1⟩)
      dummy_precision := by
  rw [quarter_turn_transform]
  norm_num [Vector3d.isApprox, Vector3d.sub, Vector3d.smul, Vector3d.squaredNorm,
    dummy_precision]

theorem quarter_turn_axis :
    ((Vector3d.mk 0 0 1).cross (quarter_turn.transformVector ⟨0, 0, 1⟩)).normalized
      = ⟨1, 0, 0⟩ := by
  rw [quarter_turn_transform]
  have hc : (Vector3d.mk 0 0 1).cross ⟨0, -1, 0⟩ = ⟨1, 0, 0⟩ := by
    ext <;> simp [Vector3d.cross]
  rw [hc]
  exact Vector3d.normalized_of_unit (by norm_num [Vector3d.squaredNorm])

theorem quarter_turn_angle :
    acos ((Vector3d.mk 0 0 1).dot (quarter_turn.transformVector ⟨0, 0, 1⟩)) = Real.pi / 2 := by
  rw [quarter_turn_transform]
  have hd : (Vector3d.mk 0 0 1).dot ⟨0, -1, 0⟩ = 0 := by simp [Vector3d.dot]
  rw [hd, acos, Real.arccos_zero]

theorem quarter_turn_general_p :
    general_p ⟨0, 0, 1⟩ (quarter_turn.transformVector ⟨0, 0, 1⟩) = quarter_turn := by
  have h4 : Real.pi / 2 / 2 = Real.pi / 4 := by ring
  simp only [general_p, quarter_turn_axis, quarter_turn_angle, h4, Real.cos_pi_div_four,
    Real.sin_pi_div_four, sqrt_two_div_two]
  ext <;> simp [quarter_turn]

theorem quarter_turn_decompose :
    decompose_rotation quarter_turn ⟨0, 0, 1⟩ = (quarter_turn, ⟨1, 0, 0, 0⟩) := by
  have he : (Vector3d.mk 0 0 1).squaredNorm = 1 := by norm_num [Vector3d.squaredNorm]
  rw [decompose_rotation_unit quarter_turn_unit he, if_neg quarter_turn_not_A,
    if_neg quarter_turn_not_B, quarter_turn_general_p]
  have h := inv_sqrt_two_mul_self
  have hq : quarter_turn.conjugate.mul quarter_turn = ⟨1, 0, 0, 0⟩ := by
    ext
    · simp only [quarter_turn, Quaterniond.conjugate, Quaterniond.mul]
      linear_combination 2 * h
    · simp only [quarter_turn, Quaterniond.conjugate, Quaterniond.mul]
      ring
    · simp only [quarter_turn, Quaterniond.conjugate, Quaterniond.mul]
      ring
    · simp only [quarter_turn, Quaterniond.conjugate, Quaterniond.mul]
      ring
  rw [hq]

theorem quarter_turn_test_angle : 2 * acos quarter_turn.w = Real.pi / 2 := by
  have h : acos quarter_turn.w = Real.pi / 4 := by
    simp only [quarter_turn, acos]
    rw [← sqrt_two_div_two, ← Real.cos_pi_div_four]
    exact Real.arccos_cos (by positivity) (by linarith [Real.pi_pos])
  rw [h]
  ring

theorem quarter_turn_test_e_p : test_e_p quarter_turn = ⟨1, 0, 0⟩ := by
  have hne : 2 * acos quarter_turn.w ≠ 0 := by
    rw [quarter_turn_test_angle]
    exact (by positivity : (0 : ℝ) < Real.pi / 2).ne'
  have h4 : Real.pi / 2 / 2 = Real.pi / 4 := by ring
  have hpos : 0 < Real.sqrt 2 := Real.sqrt_pos.mpr (by norm_num)
  simp only [test_e_p]
  rw [if_pos hne, quarter_turn_test_angle, h4, Real.sin_pi_div_four, sqrt_two_div_two]
  ext
  · simp only [quarter_turn]
    exact div_self (one_div_ne_zero hpos.ne')
  · simp [quarter_turn]
  · simp [quarter_turn]

theorem quarter_turn_test : test quarter_turn ⟨0, 0, 1⟩ = true := by
  have hn : quarter_turn.norm = 1 := Quaterniond.norm_of_unit quarter_turn_unit
  have h1 : (Quaterniond.mk 1 0 0 0).norm = 1 :=
    Quaterniond.norm_of_unit Quaterniond.squaredNorm_one
  have hrpq : quarter_turn.isApprox quarter_turn dummy_precision := by
    simp only [Quaterniond.isApprox, sub_self, mul_zero, add_zero, min_self,
      quarter_turn_unit]
    norm_num [dummy_precision]
  simp only [test, quarter_turn_decompose, hn, h1, Quaterniond.mul_one, quarter_turn_test_e_p]
  simp [hrpq, Vector3d.dot]


/-- C12 (the 90-degree scenario is a general-case input): for
`r = (1/√2, 1/√2, 0, 0)` and `e_q = (0,0,1)`, `r * e_q = (0,-1,0)`; neither
branch test succeeds, so the general branch is taken; it yields
`e_p = (1,0,0)`, `theta_p = π/2`, `p = r` and `q` the identity; the norms are
1, `p * q = r`, `q` fixes `e_q`, the axis that `test` reads back is `(1,0,0)`,
orthogonal to `e_q`, and `test` returns true.  The driver runs this scenario
as the second one under its heading `re_q == -1 * e_q`: when the first three
scenarios pass and this one fails, the heading is the last one printed before
`Something wrong.`. -/
theorem quarter_turn_scenario :
    quarter_turn.transformVector ⟨0, 0, 1⟩ = ⟨0, -1, 0⟩ ∧
      ¬ (quarter_turn.transformVector ⟨0, 0, 1⟩).isApprox ⟨0, 0, 1⟩ dummy_precision ∧
      ¬ (quarter_turn.transformVector ⟨0, 0, 1⟩).isApprox (Vector3d.smul (-1) ⟨0, 0, 1⟩)
        dummy_precision ∧
      ((Vector3d.mk 0 0 1).cross (quarter_turn.transformVector ⟨0, 0, 1⟩)).normalized
        = ⟨1, 0, 0⟩ ∧
      acos ((Vector3d.mk 0 0 1).dot (quarter_turn.transformVector ⟨0, 0, 1⟩))
        = Real.pi / 2 ∧
      decompose_rotation quarter_turn ⟨0, 0, 1⟩ = (quarter_turn, ⟨1, 0, 0, 0⟩) ∧
      ((decompose_rotation quarter_turn ⟨0, 0, 1⟩).1.norm = 1 ∧
        (decompose_rotation quarter_turn ⟨0, 0, 1⟩).2.norm = 1 ∧
        (decompose_rotation quarter_turn ⟨0, 0, 1⟩).1.mul
          (decompose_rotation quarter_turn ⟨0, 0, 1⟩).2 = quarter_turn ∧
        (decompose_rotation quarter_turn ⟨0, 0, 1⟩).2.transformVector ⟨0, 0, 1⟩
          = ⟨0, 0, 1⟩ ∧
        2 * acos (decompose_rotation quarter_turn ⟨0, 0, 1⟩).1.w = Real.pi / 2 ∧
        test_e_p (decompose_rotation quarter_turn ⟨0, 0, 1⟩).1 = ⟨1, 0, 0⟩ ∧
        (test_e_p (decompose_rotation quarter_turn ⟨0, 0, 1⟩).1).dot ⟨0, 0, 1⟩ = 0) ∧
      test quarter_turn ⟨0, 0, 1⟩ = true ∧
      ∀ (t : Quaterniond → Vector3d → Bool) (sample : ℕ → Quaterniond × Vector3d),
        t ⟨1, 0, 0, 0⟩ ⟨1, 0, 0⟩ = true → t ⟨0, 1, 0, 0⟩ ⟨1, 0, 0⟩ = true →
        t ⟨0, 1, 0, 0⟩ ⟨0, 0, 1⟩ = true → t quarter_turn ⟨0, 0, 1⟩ = false →
        main t sample
          = (["re_q == e_q", "Good.", "", "re_q == -1 * e_q", "Something wrong."], 0) := by
  refine ⟨quarter_turn_transform, quarter_turn_not_A, quarter_turn_not_B, quarter_turn_axis,
    quarter_turn_angle, quarter_turn_decompose, ?_, quarter_turn_test, ?_⟩
  · rw [quarter_turn_decompose]
    refine ⟨Quaterniond.norm_of_unit quarter_turn_unit,
      Quaterniond.norm_of_unit Quaterniond.squaredNorm_one, Quaterniond.mul_one _,
      Quaterniond.one_transformVector _, quarter_turn_test_angle, quarter_turn_test_e_p, ?_⟩
    simp only [quarter_turn_test_e_p]
    simp [Vector3d.dot]
  · intro t sample h1 h2 h3 h4
    simp only [quarter_turn] at h4
    unfold main
    rw [h1, h2, h3, h4]
    simp

/-! ## The exit status of the driver -/

theorem main_others_status (t : Quaterniond → Vector3d → Bool)
    (sample : ℕ → Quaterniond × Vector3d) (n : ℕ) :
    ∀ i, (main_others t sample n i).2 = none ∨
      ((main_others t sample n i).2 = some 0 ∧
        "Something wrong." ∈ (main_others t sample n i).1) := by
  induction n with
  | zero => intro i; left; rfl
  | succ n ih =>
    intro i
    by_cases h : t (sample i).1 (sample i).2 = true
    · rcases ih (i + 1) with h1 | ⟨h1, h2⟩
      · left
        simp only [main_others, if_pos h, h1]
      · right
        simp only [main_others, if_pos h, h1, List.mem_cons, h2, or_true, and_self]
    · right
      simp only [main_others, if_neg h, List.mem_singleton, and_self]

theorem main_others_pass (sample : ℕ → Quaterniond × Vector3d) (n : ℕ) :
    ∀ i, (main_others (fun _ _ => true) sample n i).2 = none := by
  induction n with
  | zero => intro i; rfl
  | succ n ih =>
    intro i
    simp only [main_others, if_true, ih]

/-- C13 (the exit status does not reflect failure): whatever the calls of
`test` return and whatever the random inputs are, `main` returns 0, on the
path that prints `All OK.` and on every path that prints `Something wrong.`;
each run ends on one of these two kinds of path, and both occur. -/
theorem main_exit_status (t : Quaterniond → Vector3d → Bool)
    (sample : ℕ → Quaterniond × Vector3d) :
    (main t sample).2 = 0 ∧
      ("Something wrong." ∈ (main t sample).1 ∨ "All OK." ∈ (main t sample).1) ∧
      ("Something wrong." ∈ (main (fun _ _ => false) sample).1 ∧
        (main (fun _ _ => false) sample).2 = 0) ∧
      ("All OK." ∈ (main (fun _ _ => true) sample).1 ∧
        (main (fun _ _ => true) sample).2 = 0) := by
  refine ⟨?_, ?_, ?_, ?_⟩
  · unfold main
    split_ifs
    · rcases main_others_status t sample 1000 0 with h | ⟨h, _⟩
      · rw [h]
      · rw [h]
    · rfl
    · rfl
  · unfold main
    split_ifs
    · rcases main_others_status t sample 1000 0 with h | ⟨h, hm⟩
      · right
        rw [h]
        simp
      · left
        rw [h]
        simp [hm]
    · left; simp
    · left; simp
  · simp [main]
  · have h := main_others_pass sample 1000 0
    simp [main, h]


/-! ## The excepted branches, the sign of `r`, and idempotence -/

theorem decompose_rotation_of_B {r : Quaterniond} {e_q : Vector3d}
    (hr : r.squaredNorm = 1) (he : e_q.squaredNorm = 1)
    (hA : ¬ (r.transformVector e_q).isApprox e_q dummy_precision)
    (hB : (r.transformVector e_q).isApprox (Vector3d.smul (-1) e_q) dummy_precision) :
    decompose_rotation r e_q = (r, ⟨1, 0, 0, 0⟩) := by
  rw [decompose_rotation_unit hr he, if_neg hA, if_pos hB]

theorem decompose_rotation_of_general {r : Quaterniond} {e_q : Vector3d}
    (hr : r.squaredNorm = 1) (he : e_q.squaredNorm = 1)
    (hA : ¬ (r.transformVector e_q).isApprox e_q dummy_precision)
    (hB : ¬ (r.transformVector e_q).isApprox (Vector3d.smul (-1) e_q) dummy_precision) :
    decompose_rotation r e_q = (general_p e_q (r.transformVector e_q),
      (general_p e_q (r.transformVector e_q)).conjugate.mul r) := by
  rw [decompose_rotation_unit hr he, if_neg hA, if_neg hB]

/-- An exact flip `r * e_q = -e_q` passes the Case B test and fails the Case A
test. -/
theorem flip_tests {r : Quaterniond} {e_q : Vector3d} (he : e_q.squaredNorm = 1)
    (h : r.transformVector e_q = Vector3d.smul (-1) e_q) :
    ¬ (r.transformVector e_q).isApprox e_q dummy_precision ∧
      (r.transformVector e_q).isApprox (Vector3d.smul (-1) e_q) dummy_precision := by
  rw [h]
  exact ⟨Vector3d.not_isApprox_neg he, Vector3d.isApprox_self _⟩

/-- A unit quaternion that reverses the unit vector `e` has scalar part 0 and
a vector part orthogonal to `e`. -/
theorem flip_scalar_and_dot {r : Quaterniond} {e : Vector3d}
    (hr : r.squaredNorm = 1) (he : e.squaredNorm = 1)
    (h : r.transformVector e = Vector3d.smul (-1) e) :
    r.w = 0 ∧ r.vec.dot e = 0 := by
  have key : (r.transformVector e).dot e
      = e.squaredNorm + 2 * (r.vec.dot e * r.vec.dot e)
        - 2 * (r.squaredNorm - r.w * r.w) * e.squaredNorm := by
    simp only [Quaterniond.transformVector, Quaterniond.vec, Quaterniond.squaredNorm,
      Vector3d.cross, Vector3d.smul, Vector3d.add, Vector3d.dot, Vector3d.squaredNorm]
    ring
  have hneg : (Vector3d.smul (-1) e).dot e = -e.squaredNorm := by
    simp only [Vector3d.smul, Vector3d.dot, Vector3d.squaredNorm]
    ring
  rw [h, hneg, hr, he] at key
  have hsum : r.w * r.w + r.vec.dot e * r.vec.dot e = 0 := by linarith
  have h1 : r.w * r.w = 0 := by nlinarith [mul_self_nonneg r.w, mul_self_nonneg (r.vec.dot e)]
  have h2 : r.vec.dot e * r.vec.dot e = 0 := by linarith
  exact ⟨mul_self_eq_zero.mp h1, mul_self_eq_zero.mp h2⟩

theorem skew_flip_unit : skew_flip.squaredNorm = 1 := by
  norm_num [skew_flip, Quaterniond.squaredNorm]

theorem skew_flip_not_A :
    ¬ (skew_flip.transformVector ⟨0, 0, 1⟩).isApprox ⟨0, 0, 1⟩ dummy_precision := by
  norm_num [skew_flip, Vector3d.isApprox, Quaterniond.transformVector, Quaterniond.vec,
    Vector3d.cross, Vector3d.smul, Vector3d.add, Vector3d.sub, Vector3d.squaredNorm,
    dummy_precision]

theorem skew_flip_B :
    (skew_flip.transformVector ⟨0, 0, 1⟩).isApprox (Vector3d.smul (-1) ⟨0, 0, 1⟩)
      dummy_precision := by
  norm_num [skew_flip, Vector3d.isApprox, Quaterniond.transformVector, Quaterniond.vec,
    Vector3d.cross, Vector3d.smul, Vector3d.add, Vector3d.sub, Vector3d.squaredNorm,
    dummy_precision]

/-- C15 as stated fails: `skew_flip` and `e_q = (0,0,1)` are unit inputs on
which the fuzzy test of Case B succeeds (Case A fails) although
`r * e_q ≠ -e_q`, so `p` is `skew_flip` itself, whose vector part is not
orthogonal to `e_q`: orthogonality does not hold in every branch. -/
theorem decompose_rotation_orthogonal_counterexample :
    skew_flip.squaredNorm = 1 ∧ (Vector3d.mk 0 0 1).squaredNorm = 1 ∧
      ¬ (skew_flip.transformVector ⟨0, 0, 1⟩).isApprox ⟨0, 0, 1⟩ dummy_precision ∧
      (skew_flip.transformVector ⟨0, 0, 1⟩).isApprox (Vector3d.smul (-1) ⟨0, 0, 1⟩)
        dummy_precision ∧
      (decompose_rotation skew_flip ⟨0, 0, 1⟩).1 = skew_flip ∧
      (decompose_rotation skew_flip ⟨0, 0, 1⟩).1.vec.dot ⟨0, 0, 1⟩ ≠ 0 := by
  have he : (Vector3d.mk 0 0 1).squaredNorm = 1 := by norm_num [Vector3d.squaredNorm]
  have hd := decompose_rotation_of_B skew_flip_unit he skew_flip_not_A skew_flip_B
  refine ⟨skew_flip_unit, he, skew_flip_not_A, skew_flip_B, by rw [hd], ?_⟩
  rw [hd]
  norm_num [skew_flip, Quaterniond.vec, Vector3d.dot]

/-- C15, amended: for a unit quaternion `r` and a unit vector `e_q` with
`r * e_q = -e_q` exactly, the returned `p` is `r`, with scalar part 0 and
vector part orthogonal to `e_q`; in Case A the vector part of `p` is zero; so
the vector part of `p` and the axis that `test` reads back are orthogonal to
`e_q` in every branch provided that Case B is entered only with
`r * e_q = -e_q` exactly. -/
theorem decompose_rotation_orthogonal_excepted (r : Quaterniond) (e_q : Vector3d)
    (hr : r.squaredNorm = 1) (he : e_q.squaredNorm = 1) :
    (r.transformVector e_q = Vector3d.smul (-1) e_q →
        (decompose_rotation r e_q).1 = r ∧ (decompose_rotation r e_q).1.w = 0 ∧
          (decompose_rotation r e_q).1.vec.dot e_q = 0) ∧
      ((r.transformVector e_q).isApprox e_q dummy_precision →
        (decompose_rotation r e_q).1.vec = ⟨0, 0, 0⟩) ∧
      ((¬ (r.transformVector e_q).isApprox e_q dummy_precision →
          (r.transformVector e_q).isApprox (Vector3d.smul (-1) e_q) dummy_precision →
            r.transformVector e_q = Vector3d.smul (-1) e_q) →
        (decompose_rotation r e_q).1.vec.dot e_q = 0 ∧
          (test_e_p (decompose_rotation r e_q).1).dot e_q = 0) := by
  have hb : (r.transformVector e_q).squaredNorm = 1 := by
    rw [squaredNorm_transformVector hr, he]
  have hflip : r.transformVector e_q = Vector3d.smul (-1) e_q →
      (decompose_rotation r e_q).1 = r ∧ (decompose_rotation r e_q).1.w = 0 ∧
        (decompose_rotation r e_q).1.vec.dot e_q = 0 := by
    intro h
    obtain ⟨hA, hB⟩ := flip_tests he h
    rw [decompose_rotation_of_B hr he hA hB]
    exact ⟨rfl, flip_scalar_and_dot hr he h⟩
  refine ⟨hflip, fun hA => ?_, fun hexact => ?_⟩
  · rw [decompose_rotation_of_A hr he hA]
    rfl
  · have hdot : (decompose_rotation r e_q).1.vec.dot e_q = 0 := by
      by_cases hA : (r.transformVector e_q).isApprox e_q dummy_precision
      · rw [decompose_rotation_of_A hr he hA]
        simp [Quaterniond.vec, Vector3d.dot]
      · by_cases hB : (r.transformVector e_q).isApprox (Vector3d.smul (-1) e_q)
            dummy_precision
        · exact (hflip (hexact hA hB)).2.2
        · rw [decompose_rotation_of_general hr he hA hB]
          exact (general_p_facts he hb (cross_pos_of_general he hb hA hB)).2.2.1
    exact ⟨hdot, test_e_p_dot hdot⟩

theorem decompose_rotation_orthogonal_excepted_witness :
    (Quaterniond.mk 0 1 0 0).squaredNorm = 1 ∧ (Vector3d.mk 0 0 1).squaredNorm = 1 ∧
      (Quaterniond.mk 0 1 0 0).transformVector ⟨0, 0, 1⟩ = Vector3d.smul (-1) ⟨0, 0, 1⟩ ∧
      (decompose_rotation ⟨0, 1, 0, 0⟩ ⟨0, 0, 1⟩).1 = ⟨0, 1, 0, 0⟩ ∧
      (decompose_rotation ⟨0, 1, 0, 0⟩ ⟨0, 0, 1⟩).1.w = 0 ∧
      (decompose_rotation ⟨0, 1, 0, 0⟩ ⟨0, 0, 1⟩).1.vec.dot ⟨0, 0, 1⟩ = 0 :=
  ⟨by norm_num [Quaterniond.squaredNorm], by norm_num [Vector3d.squaredNorm],
    by norm_num [Quaterniond.transformVector, Quaterniond.vec, Vector3d.cross,
      Vector3d.smul, Vector3d.add],
    (decompose_rotation_orthogonal_excepted ⟨0, 1, 0, 0⟩ ⟨0, 0, 1⟩
      (by norm_num [Quaterniond.squaredNorm]) (by norm_num [Vector3d.squaredNorm])).1
      (by norm_num [Quaterniond.transformVector, Quaterniond.vec, Vector3d.cross,
        Vector3d.smul, Vector3d.add])⟩

theorem near_flip_unit : near_flip.squaredNorm = 1 := by
  norm_num [near_flip, Quaterniond.squaredNorm]

theorem near_flip_not_A :
    ¬ (near_flip.transformVector ⟨0, 0, 1⟩).isApprox ⟨0, 0, 1⟩ dummy_precision := by
  norm_num [near_flip, Vector3d.isApprox, Quaterniond.transformVector, Quaterniond.vec,
    Vector3d.cross, Vector3d.smul, Vector3d.add, Vector3d.sub, Vector3d.squaredNorm,
    dummy_precision]

theorem near_flip_B :
    (near_flip.transformVector ⟨0, 0, 1⟩).isApprox (Vector3d.smul (-1) ⟨0, 0, 1⟩)
      dummy_precision := by
  norm_num [near_flip, Vector3d.isApprox, Quaterniond.transformVector, Quaterniond.vec,
    Vector3d.cross, Vector3d.smul, Vector3d.add, Vector3d.sub, Vector3d.squaredNorm,
    dummy_precision]

/-- C16 as stated fails: `near_flip` and `e_q = (0,0,1)` are unit inputs on
which the fuzzy test of Case B succeeds (Case A fails), so `p` is `near_flip`
itself, whose scalar part is negative. -/
theorem decompose_rotation_canonical_counterexample :
    near_flip.squaredNorm = 1 ∧ (Vector3d.mk 0 0 1).squaredNorm = 1 ∧
      (decompose_rotation near_flip ⟨0, 0, 1⟩).1 = near_flip ∧
      ¬ (0 ≤ (decompose_rotation near_flip ⟨0, 0, 1⟩).1.w) := by
  have he : (Vector3d.mk 0 0 1).squaredNorm = 1 := by norm_num [Vector3d.squaredNorm]
  have hd := decompose_rotation_of_B near_flip_unit he near_flip_not_A near_flip_B
  refine ⟨near_flip_unit, he, by rw [hd], ?_⟩
  rw [hd]
  norm_num [near_flip]


theorem acos_strict {d : ℝ} (h1 : -1 < d) (h2 : d < 1) : 0 < acos d ∧ acos d < Real.pi := by
  refine ⟨Real.arccos_pos.mpr h2, lt_of_le_of_ne (Real.arccos_le_pi d) ?_⟩
  intro h
  have := Real.arccos_eq_pi.mp h
  linarith

theorem swing_angle_range {w : ℝ} (hw : 0 ≤ w) :
    0 ≤ 2 * acos w ∧ 2 * acos w ≤ Real.pi := by
  have h0 := Real.arccos_nonneg w
  have h1 := Real.arccos_le_pi_div_two.mpr hw
  simp only [acos]
  constructor <;> linarith

/-- C16, amended: for a unit quaternion `r` and a unit vector `e_q`, in the
general case `theta_p` lies strictly between 0 and `π` and `p.w > 0`; in
Case A `p.w = 1`; with `r * e_q = -e_q` exactly `p.w = 0`; and whenever Case B
is entered only with `r * e_q = -e_q` exactly, `p.w ≥ 0` and the swing angle
`2 * acos(p.w)` lies in `[0, π]`. -/
theorem decompose_rotation_canonical_swing (r : Quaterniond) (e_q : Vector3d)
    (hr : r.squaredNorm = 1) (he : e_q.squaredNorm = 1) :
    (¬ (r.transformVector e_q).isApprox e_q dummy_precision →
        ¬ (r.transformVector e_q).isApprox (Vector3d.smul (-1) e_q) dummy_precision →
          (0 < acos (e_q.dot (r.transformVector e_q)) ∧
            acos (e_q.dot (r.transformVector e_q)) < Real.pi) ∧
          0 < (decompose_rotation r e_q).1.w) ∧
      ((r.transformVector e_q).isApprox e_q dummy_precision →
        (decompose_rotation r e_q).1.w = 1) ∧
      (r.transformVector e_q = Vector3d.smul (-1) e_q →
        (decompose_rotation r e_q).1.w = 0) ∧
      ((¬ (r.transformVector e_q).isApprox e_q dummy_precision →
          (r.transformVector e_q).isApprox (Vector3d.smul (-1) e_q) dummy_precision →
            r.transformVector e_q = Vector3d.smul (-1) e_q) →
        0 ≤ (decompose_rotation r e_q).1.w ∧
          0 ≤ 2 * acos (decompose_rotation r e_q).1.w ∧
          2 * acos (decompose_rotation r e_q).1.w ≤ Real.pi) := by
  have hb : (r.transformVector e_q).squaredNorm = 1 := by
    rw [squaredNorm_transformVector hr, he]
  have hgen : ¬ (r.transformVector e_q).isApprox e_q dummy_precision →
      ¬ (r.transformVector e_q).isApprox (Vector3d.smul (-1) e_q) dummy_precision →
        (0 < acos (e_q.dot (r.transformVector e_q)) ∧
          acos (e_q.dot (r.transformVector e_q)) < Real.pi) ∧
        0 < (decompose_rotation r e_q).1.w := by
    intro hA hB
    have hpos := cross_pos_of_general he hb hA hB
    have hd := dot_strict_of_cross_pos he hb hpos
    rw [decompose_rotation_of_general hr he hA hB]
    exact ⟨acos_strict hd.1 hd.2, (general_p_facts he hb hpos).2.2.2⟩
  have hA1 : (r.transformVector e_q).isApprox e_q dummy_precision →
      (decompose_rotation r e_q).1.w = 1 := by
    intro hA
    rw [decompose_rotation_of_A hr he hA]
  have hflip : r.transformVector e_q = Vector3d.smul (-1) e_q →
      (decompose_rotation r e_q).1.w = 0 := by
    intro h
    obtain ⟨hA, hB⟩ := flip_tests he h
    rw [decompose_rotation_of_B hr he hA hB]
    exact (flip_scalar_and_dot hr he h).1
  refine ⟨hgen, hA1, hflip, fun hexact => ?_⟩
  have hw : 0 ≤ (decompose_rotation r e_q).1.w := by
    by_cases hA : (r.transformVector e_q).isApprox e_q dummy_precision
    · rw [hA1 hA]
      norm_num
    · by_cases hB : (r.transformVector e_q).isApprox (Vector3d.smul (-1) e_q)
          dummy_precision
      · rw [hflip (hexact hA hB)]
      · exact (hgen hA hB).2.le
  exact ⟨hw, swing_angle_range hw⟩

theorem decompose_rotation_canonical_swing_witness :
    (Quaterniond.mk (3 / 5) (4 / 5) 0 0).squaredNorm = 1 ∧
      (Vector3d.mk 0 0 1).squaredNorm = 1 ∧
      0 < (decompose_rotation ⟨3 / 5, 4 / 5, 0, 0⟩ ⟨0, 0, 1⟩).1.w :=
  ⟨by norm_num [Quaterniond.squaredNorm], by norm_num [Vector3d.squaredNorm],
    ((decompose_rotation_canonical_swing ⟨3 / 5, 4 / 5, 0, 0⟩ ⟨0, 0, 1⟩
      (by norm_num [Quaterniond.squaredNorm]) (by norm_num [Vector3d.squaredNorm])).1
      sample_general_not_A sample_general_not_B).2⟩

theorem Quaterniond.squaredNorm_neg_eq (q : Quaterniond) : q.neg.squaredNorm = q.squaredNorm := by
  simp only [Quaterniond.neg, Quaterniond.squaredNorm]
  ring

theorem Quaterniond.neg_transformVector (q : Quaterniond) (v : Vector3d) :
    q.neg.transformVector v = q.transformVector v := by
  ext <;> simp only [Quaterniond.neg, Quaterniond.transformVector, Quaterniond.vec,
    Vector3d.cross, Vector3d.smul, Vector3d.add] <;> ring

theorem Quaterniond.mul_neg_eq (a b : Quaterniond) : a.mul b.neg = (a.mul b).neg := by
  ext <;> simp only [Quaterniond.neg, Quaterniond.mul] <;> ring

theorem near_flip_ne_flip :
    near_flip.transformVector ⟨0, 0, 1⟩ ≠ Vector3d.smul (-1) ⟨0, 0, 1⟩ := by
  intro h
  have hy := congrArg Vector3d.y h
  norm_num [near_flip, Quaterniond.transformVector, Quaterniond.vec,
    Vector3d.cross, Vector3d.smul, Vector3d.add] at hy

/-- C17 as stated fails: `near_flip` and `e_q = (0,0,1)` are unit inputs with
`r * e_q ≠ -e_q` on which the fuzzy test of Case B succeeds, so both `r` and
`-r` are returned as `p` with the identity as `q`: the result for `-r` is
`(-p, q)`, not `(p, -q)`. -/
theorem decompose_rotation_neg_counterexample :
    near_flip.squaredNorm = 1 ∧ (Vector3d.mk 0 0 1).squaredNorm = 1 ∧
      near_flip.transformVector ⟨0, 0, 1⟩ ≠ Vector3d.smul (-1) ⟨0, 0, 1⟩ ∧
      decompose_rotation near_flip.neg ⟨0, 0, 1⟩
        ≠ ((decompose_rotation near_flip ⟨0, 0, 1⟩).1,
          (decompose_rotation near_flip ⟨0, 0, 1⟩).2.neg) := by
  have he : (Vector3d.mk 0 0 1).squaredNorm = 1 := by norm_num [Vector3d.squaredNorm]
  have hn : near_flip.neg.squaredNorm = 1 := by
    rw [Quaterniond.squaredNorm_neg_eq, near_flip_unit]
  have hA' : ¬ (near_flip.neg.transformVector ⟨0, 0, 1⟩).isApprox ⟨0, 0, 1⟩
      dummy_precision := by
    rw [Quaterniond.neg_transformVector]; exact near_flip_not_A
  have hB' : (near_flip.neg.transformVector ⟨0, 0, 1⟩).isApprox
      (Vector3d.smul (-1) ⟨0, 0, 1⟩) dummy_precision := by
    rw [Quaterniond.neg_transformVector]; exact near_flip_B
  refine ⟨near_flip_unit, he, near_flip_ne_flip, ?_⟩
  rw [decompose_rotation_of_B hn he hA' hB',
    decompose_rotation_of_B near_flip_unit he near_flip_not_A near_flip_B]
  intro h
  have hw := congrArg (fun pq : Quaterniond × Quaterniond => pq.1.w) h
  norm_num [near_flip, Quaterniond.neg] at hw

/-- C17, amended: for a unit quaternion `r` and a unit vector `e_q`, `-r`
takes the branch that `r` takes.  When Case B is not taken (Case A or the
general case, and then `r * e_q ≠ -e_q`),
`decompose_rotation(-r, e_q) = (p, -q)` for `(p, q) = decompose_rotation(r, e_q)`;
when Case B is taken, also through the tolerance of its test with
`r * e_q ≠ -e_q`, the result is `(-p, q)`. -/
theorem decompose_rotation_neg (r : Quaterniond) (e_q : Vector3d)
    (hr : r.squaredNorm = 1) (he : e_q.squaredNorm = 1) :
    (((r.transformVector e_q).isApprox e_q dummy_precision ∨
          ¬ (r.transformVector e_q).isApprox (Vector3d.smul (-1) e_q) dummy_precision) →
        r.transformVector e_q ≠ Vector3d.smul (-1) e_q ∧
          decompose_rotation r.neg e_q
            = ((decompose_rotation r e_q).1, (decompose_rotation r e_q).2.neg)) ∧
      ((¬ (r.transformVector e_q).isApprox e_q dummy_precision ∧
          (r.transformVector e_q).isApprox (Vector3d.smul (-1) e_q) dummy_precision) →
        decompose_rotation r.neg e_q
          = ((decompose_rotation r e_q).1.neg, (decompose_rotation r e_q).2)) := by
  have hn : r.neg.squaredNorm = 1 := by rw [Quaterniond.squaredNorm_neg_eq, hr]
  constructor
  · intro hAB
    have hne : r.transformVector e_q ≠ Vector3d.smul (-1) e_q := by
      intro h
      obtain ⟨hA, hB⟩ := flip_tests he h
      rcases hAB with h1 | h1
      · exact hA h1
      · exact h1 hB
    refine ⟨hne, ?_⟩
    by_cases hA : (r.transformVector e_q).isApprox e_q dummy_precision
    · have hA' : (r.neg.transformVector e_q).isApprox e_q dummy_precision := by
        rw [Quaterniond.neg_transformVector]; exact hA
      rw [decompose_rotation_of_A hn he hA', decompose_rotation_of_A hr he hA]
    · have hB : ¬ (r.transformVector e_q).isApprox (Vector3d.smul (-1) e_q)
          dummy_precision := by
        rcases hAB with h1 | h1
        · exact absurd h1 hA
        · exact h1
      have hA' : ¬ (r.neg.transformVector e_q).isApprox e_q dummy_precision := by
        rw [Quaterniond.neg_transformVector]; exact hA
      have hB' : ¬ (r.neg.transformVector e_q).isApprox (Vector3d.smul (-1) e_q)
          dummy_precision := by
        rw [Quaterniond.neg_transformVector]; exact hB
      rw [decompose_rotation_of_general hn he hA' hB',
        decompose_rotation_of_general hr he hA hB, Quaterniond.neg_transformVector,
        Quaterniond.mul_neg_eq]
  · rintro ⟨hA, hB⟩
    have hA' : ¬ (r.neg.transformVector e_q).isApprox e_q dummy_precision := by
      rw [Quaterniond.neg_transformVector]; exact hA
    have hB' : (r.neg.transformVector e_q).isApprox (Vector3d.smul (-1) e_q)
        dummy_precision := by
      rw [Quaterniond.neg_transformVector]; exact hB
    rw [decompose_rotation_of_B hn he hA' hB', decompose_rotation_of_B hr he hA hB]

theorem decompose_rotation_neg_witness :
    (Quaterniond.mk (3 / 5) (4 / 5) 0 0).squaredNorm = 1 ∧
      (Vector3d.mk 0 0 1).squaredNorm = 1 ∧
      decompose_rotation (Quaterniond.mk (3 / 5) (4 / 5) 0 0).neg ⟨0, 0, 1⟩
        = ((decompose_rotation ⟨3 / 5, 4 / 5, 0, 0⟩ ⟨0, 0, 1⟩).1,
          (decompose_rotation ⟨3 / 5, 4 / 5, 0, 0⟩ ⟨0, 0, 1⟩).2.neg) :=
  ⟨by norm_num [Quaterniond.squaredNorm], by norm_num [Vector3d.squaredNorm],
    ((decompose_rotation_neg ⟨3 / 5, 4 / 5, 0, 0⟩ ⟨0, 0, 1⟩
      (by norm_num [Quaterniond.squaredNorm]) (by norm_num [Vector3d.squaredNorm])).1
      (Or.inr sample_general_not_B)).2⟩

theorem Quaterniond.conjugate_mul_self {p : Quaterniond} (hp : p.squaredNorm = 1) :
    p.conjugate.mul p = ⟨1, 0, 0, 0⟩ := by
  simp only [Quaterniond.squaredNorm] at hp
  ext
  · simp only [Quaterniond.conjugate, Quaterniond.mul]
    linear_combination hp
  · simp only [Quaterniond.conjugate, Quaterniond.mul]
    ring
  · simp only [Quaterniond.conjugate, Quaterniond.mul]
    ring
  · simp only [Quaterniond.conjugate, Quaterniond.mul]
    ring

/-- C18 (idempotence on the swing): for a unit quaternion `r` and a unit
vector `e_q`, decomposing the returned `p` about the same axis gives `p` back
with the identity as twist. -/
theorem decompose_rotation_swing_idempotent (r : Quaterniond) (e_q : Vector3d)
    (hr : r.squaredNorm = 1) (he : e_q.squaredNorm = 1) :
    decompose_rotation (decompose_rotation r e_q).1 e_q
      = ((decompose_rotation r e_q).1, ⟨1, 0, 0, 0⟩) := by
  have hb : (r.transformVector e_q).squaredNorm = 1 := by
    rw [squaredNorm_transformVector hr, he]
  by_cases hA : (r.transformVector e_q).isApprox e_q dummy_precision
  · rw [decompose_rotation_of_A hr he hA]
    apply decompose_rotation_of_A Quaterniond.squaredNorm_one he
    rw [Quaterniond.one_transformVector]
    exact Vector3d.isApprox_self e_q
  · by_cases hB : (r.transformVector e_q).isApprox (Vector3d.smul (-1) e_q) dummy_precision
    · rw [decompose_rotation_of_B hr he hA hB]
      exact decompose_rotation_of_B hr he hA hB
    · obtain ⟨hp, hpa, _, _⟩ := general_p_facts he hb (cross_pos_of_general he hb hA hB)
      rw [decompose_rotation_of_general hr he hA hB]
      have hA' : ¬ ((general_p e_q (r.transformVector e_q)).transformVector e_q).isApprox e_q
          dummy_precision := by
        rw [hpa]; exact hA
      have hB' : ¬ ((general_p e_q (r.transformVector e_q)).transformVector e_q).isApprox
          (Vector3d.smul (-1) e_q) dummy_precision := by
        rw [hpa]; exact hB
      rw [decompose_rotation_of_general hp he hA' hB', hpa,
        Quaterniond.conjugate_mul_self hp]

theorem decompose_rotation_swing_idempotent_witness :
    (Quaterniond.mk (3 / 5) (4 / 5) 0 0).squaredNorm = 1 ∧
      (Vector3d.mk 0 0 1).squaredNorm = 1 ∧
      decompose_rotation (decompose_rotation ⟨3 / 5, 4 / 5, 0, 0⟩ ⟨0, 0, 1⟩).1 ⟨0, 0, 1⟩
        = ((decompose_rotation ⟨3 / 5, 4 / 5, 0, 0⟩ ⟨0, 0, 1⟩).1, ⟨1, 0, 0, 0⟩) :=
  ⟨by norm_num [Quaterniond.squaredNorm], by norm_num [Vector3d.squaredNorm],
    decompose_rotation_swing_idempotent ⟨3 / 5, 4 / 5, 0, 0⟩ ⟨0, 0, 1⟩
      (by norm_num [Quaterniond.squaredNorm]) (by norm_num [Vector3d.squaredNorm])⟩

/-- C19 (idempotence on the twist): for a unit quaternion `r` and a unit
vector `e_q`, decomposing the returned `q` about the same axis takes Case A
and gives the identity as swing and `q` back as twist. -/
theorem decompose_rotation_twist_idempotent (r : Quaterniond) (e_q : Vector3d)
    (hr : r.squaredNorm = 1) (he : e_q.squaredNorm = 1) :
    ((decompose_rotation r e_q).2.transformVector e_q).isApprox e_q dummy_precision ∧
      decompose_rotation (decompose_rotation r e_q).2 e_q
        = (⟨1, 0, 0, 0⟩, (decompose_rotation r e_q).2) := by
  have hq := (decompose_rotation_squaredNorm hr he).2
  have hAq : ((decompose_rotation r e_q).2.transformVector e_q).isApprox e_q
      dummy_precision := by
    by_cases hA : (r.transformVector e_q).isApprox e_q dummy_precision
    · rw [decompose_rotation_of_A hr he hA]
      exact hA
    · rw [twist_fixes_axis hr he hA]
      exact Vector3d.isApprox_self e_q
  exact ⟨hAq, decompose_rotation_of_A hq he hAq⟩

theorem decompose_rotation_twist_idempotent_witness :
    (Quaterniond.mk (3 / 5) (4 / 5) 0 0).squaredNorm = 1 ∧
      (Vector3d.mk 0 0 1).squaredNorm = 1 ∧
      decompose_rotation (decompose_rotation ⟨3 / 5, 4 / 5, 0, 0⟩ ⟨0, 0, 1⟩).2 ⟨0, 0, 1⟩
        = (⟨1, 0, 0, 0⟩, (decompose_rotation ⟨3 / 5, 4 / 5, 0, 0⟩ ⟨0, 0, 1⟩).2) :=
  ⟨by norm_num [Quaterniond.squaredNorm], by norm_num [Vector3d.squaredNorm],
    (decompose_rotation_twist_idempotent ⟨3 / 5, 4 / 5, 0, 0⟩ ⟨0, 0, 1⟩
      (by norm_num [Quaterniond.squaredNorm]) (by norm_num [Vector3d.squaredNorm])).2⟩

end RotationDecomposition
